import Mathlib

/-!
# Binding header values onto struct fields

A shallow embedding of `headers.go` (package `headers`): `UnmarshalHeaders` walks the
fields of a struct, looks the `header` tag of each field up in an `http.Header`, and
`setValueFromHeader` converts the values found into the field.

The library functions the two source functions call are embedded next to them, each one
following the Go standard library: `strconv.ParseBool`, `strconv.ParseUint`,
`strconv.ParseInt` (base 10, as at every call site), `strconv.ParseFloat`,
`textproto.CanonicalMIMEHeaderKey` and `http.Header.Values`.  Go strings are Lean strings
read character by character; every character above 127 stands for bytes above 127, which
the functions below treat alike.  Of `strconv.ParseFloat` the reading of the string is
embedded; the value of a string that was read, and the conversion to `float32`, are taken
as parameters (`FloatLib`); floating-point values are carried as their IEEE-754 bit
patterns.  An `http.Header` is the
list of its entries, each under the key it is stored under; a struct is the list of its
fields with their values.

A call can end in three ways: it returns `nil`, it returns an error, or it panics
(`Result`).  The record is threaded through explicitly, so the state left behind is
visible in all three cases.
-/

namespace Headers

/-! ## Errors and results -/

/-- The sentinel errors `strconv.ErrSyntax` and `strconv.ErrRange`. -/
inductive StrconvErr
  | ErrSyntax
  | ErrRange
  deriving DecidableEq, Repr

/-- Error values: `ErrUnknownType` of this package, `*strconv.NumError`, and any other
error a custom `UnmarshalHeader` method may return. -/
inductive GoError
  | ErrUnknownType
  | NumError (Func : String) (Num : String) (Err : StrconvErr)
  | other (msg : String)
  deriving DecidableEq, Repr

/-- How a call ends: `nil`, an error, or a run-time panic. -/
inductive Result
  | ok
  | err (e : GoError)
  | panic (msg : String)
  deriving DecidableEq, Repr

/-- `syntaxError(fn, str)` of package strconv. -/
def syntaxError (fn str : String) : GoError := .NumError fn str .ErrSyntax

/-- `rangeError(fn, str)` of package strconv. -/
def rangeError (fn str : String) : GoError := .NumError fn str .ErrRange

/-! ## package strconv -/

/-- `strconv.IntSize`: the size in bits of `int` and `uint` (a 64-bit platform). -/
def IntSize : Nat := 64

/-- `strconv.ParseBool`. -/
def ParseBool (str : String) : Bool × Option GoError :=
  if str = "1" ∨ str = "t" ∨ str = "T" ∨ str = "true" ∨ str = "TRUE" ∨ str = "True" then
    (true, none)
  else if str = "0" ∨ str = "f" ∨ str = "F" ∨ str = "false" ∨ str = "FALSE"
      ∨ str = "False" then
    (false, none)
  else
    (false, some (syntaxError "ParseBool" str))

/-- `lower(c)` of package strconv: `c | ('x' - 'X')`. -/
def lower (c : Nat) : Nat := c ||| 0x20

/-- The digit a byte stands for in the loop of `ParseUint`, `none` in the `default` case
of its switch (`base0` is false, so `_` is not skipped). -/
def digitVal (c : Nat) : Option Nat :=
  if 48 ≤ c ∧ c ≤ 57 then some (c - 48)
  else if 97 ≤ lower c ∧ lower c ≤ 122 then some (lower c - 97 + 10)
  else none

/-- The loop of `strconv.ParseUint` over the bytes of `s`, for base 10: `n` is the number
read so far.  Returns the value together with the error, as the Go function does. -/
def parseUintLoop (s0 : String) (cutoff maxVal : Nat) : List Char → Nat → Nat × Option GoError
  | [], n => (n, none)
  | c :: cs, n =>
    match digitVal c.toNat with
    | none => (0, some (syntaxError "ParseUint" s0))
    | some d =>
      if d ≥ 10 then (0, some (syntaxError "ParseUint" s0))
      else if n ≥ cutoff then (maxVal, some (rangeError "ParseUint" s0))
      else
        let n10 := (n * 10) % 2 ^ 64
        let n1 := (n10 + d) % 2 ^ 64
        if n1 < n10 ∨ n1 > maxVal then (maxVal, some (rangeError "ParseUint" s0))
        else parseUintLoop s0 cutoff maxVal cs n1

/-- `strconv.ParseUint(s, 10, bitSize)` for `bitSize ≤ 64`. -/
def ParseUint (s : String) (bitSize : Nat) : Nat × Option GoError :=
  if s = "" then (0, some (syntaxError "ParseUint" s))
  else
    let bitSize := if bitSize = 0 then IntSize else bitSize
    let cutoff := (2 ^ 64 - 1) / 10 + 1
    let maxVal := (2 ^ bitSize - 1) % 2 ^ 64
    parseUintLoop s cutoff maxVal s.data 0

/-- The value of a Go `intN` conversion: `n` reduced modulo `2^bits` and read as a
two's-complement number. -/
def wrapInt (bits : Nat) (n : Int) : Int :=
  (n + 2 ^ (bits - 1)) % 2 ^ bits - 2 ^ (bits - 1)

/-- `strconv.ParseInt(s, 10, bitSize)` for `bitSize ≤ 64`. -/
def ParseInt (s0 : String) (bitSize : Nat) : Int × Option GoError :=
  if s0 = "" then (0, some (syntaxError "ParseInt" s0))
  else
    let neg := s0.data.head? = some '-'
    let s : String :=
      if s0.data.head? = some '+' then ⟨s0.data.tail⟩
      else if s0.data.head? = some '-' then ⟨s0.data.tail⟩
      else s0
    match ParseUint s bitSize with
    | (_, some (.NumError _ _ .ErrSyntax)) => (0, some (.NumError "ParseInt" s0 .ErrSyntax))
    | (un, _) =>
      let bitSize := if bitSize = 0 then IntSize else bitSize
      let cutoff := 2 ^ (bitSize - 1)
      if ¬ neg ∧ un ≥ cutoff then ((cutoff : Int) - 1, some (rangeError "ParseInt" s0))
      else if neg ∧ un > cutoff then (-(cutoff : Int), some (rangeError "ParseInt" s0))
      else
        let n := wrapInt 64 un
        (if neg then wrapInt 64 (-n) else n, none)

/-- The numeric conversion of package strconv, taken as a parameter: `atof64 s` is the
value (its IEEE-754 bits) that `atof64` computes for a string it has read as a decimal or
hexadecimal floating-point literal, and whether that value overflows (the range error);
`float32 x` is the Go conversion `float32(x)` of a 64-bit value. -/
structure FloatLib where
  atof64 : String → Nat × Bool
  float32 : Nat → Nat

/-- `commonPrefixLenIgnoreCase(s, prefix)` of package strconv, for a lower-case
`prefix`. -/
def commonPrefixLenIgnoreCase : List Char → List Char → Nat
  | c :: s, p :: pre =>
    let c1 := if 65 ≤ c.toNat ∧ c.toNat ≤ 90 then c.toNat + 32 else c.toNat
    if c1 ≠ p.toNat then 0 else commonPrefixLenIgnoreCase s pre + 1
  | _, _ => 0

/-- `special` of package strconv: the value (bits of `+Inf`, `-Inf`, `NaN`) and the number
of bytes read when `s` starts with an infinity or a NaN, `none` otherwise. -/
def special (s : List Char) : Option (Nat × Nat) :=
  match s with
  | [] => none
  | c :: rest =>
    if c = '+' ∨ c = '-' then
      let n := commonPrefixLenIgnoreCase rest "infinity".data
      let n := if 3 < n ∧ n < 8 then 3 else n
      if n = 3 ∨ n = 8 then
        some (if c = '-' then 0xFFF0000000000000 else 0x7FF0000000000000, 1 + n)
      else none
    else if c = 'i' ∨ c = 'I' then
      let n := commonPrefixLenIgnoreCase s "infinity".data
      let n := if 3 < n ∧ n < 8 then 3 else n
      if n = 3 ∨ n = 8 then some (0x7FF0000000000000, n) else none
    else if c = 'n' ∨ c = 'N' then
      if commonPrefixLenIgnoreCase s "nan".data = 3 then some (0x7FF8000000000001, 3) else none
    else none

/-- The loop of `underscoreOK`: `saw` is the last kind of character seen (`0` a digit or
the base prefix, `_` an underscore, `!` anything else, `^` the start). -/
def underscoreOKLoop (hex : Bool) : List Char → Char → Bool
  | [], saw => decide (saw ≠ '_')
  | c :: cs, saw =>
    if (48 ≤ c.toNat ∧ c.toNat ≤ 57) ∨
        (hex = true ∧ 97 ≤ lower c.toNat ∧ lower c.toNat ≤ 102) then
      underscoreOKLoop hex cs '0'
    else if c = '_' then
      if saw ≠ '0' then false else underscoreOKLoop hex cs '_'
    else if saw = '_' then false
    else underscoreOKLoop hex cs '!'

/-- `underscoreOK` of package strconv: underscores only between digits or between a base
prefix and a digit. -/
def underscoreOK (s : List Char) : Bool :=
  let s := if s.head? = some '-' ∨ s.head? = some '+' then s.tail else s
  match s with
  | c0 :: c1 :: rest =>
    if c0 = '0' ∧ (lower c1.toNat = 98 ∨ lower c1.toNat = 111 ∨ lower c1.toNat = 120) then
      underscoreOKLoop (decide (lower c1.toNat = 120)) rest '0'
    else underscoreOKLoop false s '^'
  | _ => underscoreOKLoop false s '^'

/-- The mantissa loop of `readFloat`: what is left of the string, whether a digit was
seen, and whether an underscore was seen. -/
def readMantissa (hex : Bool) : List Char → Bool → Bool → Bool → List Char × Bool × Bool
  | [], _, sawdigits, underscores => ([], sawdigits, underscores)
  | c :: cs, sawdot, sawdigits, underscores =>
    if c = '_' then readMantissa hex cs sawdot sawdigits true
    else if c = '.' then
      if sawdot = true then (c :: cs, sawdigits, underscores)
      else readMantissa hex cs true sawdigits underscores
    else if 48 ≤ c.toNat ∧ c.toNat ≤ 57 then readMantissa hex cs sawdot true underscores
    else if hex = true ∧ 97 ≤ lower c.toNat ∧ lower c.toNat ≤ 102 then
      readMantissa hex cs sawdot true underscores
    else (c :: cs, sawdigits, underscores)

/-- The loop of `readFloat` over the digits and underscores of the exponent. -/
def readExponent : List Char → Bool → List Char × Bool
  | [], underscores => ([], underscores)
  | c :: cs, underscores =>
    if c = '_' then readExponent cs true
    else if 48 ≤ c.toNat ∧ c.toNat ≤ 57 then readExponent cs underscores
    else (c :: cs, underscores)

/-- The end of `readFloat`: the check of the underscores in the part of `s` that was
read. -/
def readFloatEnd (s rest : List Char) (underscores : Bool) : Option (List Char) :=
  if underscores = true ∧ underscoreOK (s.take (s.length - rest.length)) = false then none
  else some rest

/-- The lexical part of `readFloat` of package strconv: what is left of `s` after the
decimal or hexadecimal mantissa and exponent read from its start, `none` when `ok` is
false.  The mantissa and exponent it computes go to the conversion, which is a
parameter. -/
def readFloat (s : List Char) : Option (List Char) :=
  if s.length = 0 then none
  else
    let s1 := if s.head? = some '+' ∨ s.head? = some '-' then s.tail else s
    let hex : Bool := decide (2 < s1.length) && decide (s1.head? = some '0') &&
      decide (s1.tail.head?.map (fun c => lower c.toNat) = some 120)
    let s2 := if hex = true then s1.drop 2 else s1
    match readMantissa hex s2 false false false with
    | (s3, sawdigits, underscores) =>
      if sawdigits = false then none
      else
        match s3 with
        | [] => if hex = true then none else readFloatEnd s [] underscores
        | c :: s4 =>
          if lower c.toNat = (if hex = true then 112 else 101) then
            if s4.length = 0 then none
            else
              let s5 := if s4.head? = some '+' ∨ s4.head? = some '-' then s4.tail else s4
              match s5 with
              | [] => none
              | d :: _ =>
                if d.toNat < 48 ∨ d.toNat > 57 then none
                else
                  match readExponent s5 underscores with
                  | (s6, underscores2) => readFloatEnd s s6 underscores2
          else if hex = true then none
          else readFloatEnd s s3 underscores

/-- `strconv.ParseFloat(s, 64)`: the bits of the value and the error.  The string is read
by `special` or by `readFloat`; a string that is not read to its end is a syntax error;
the conversion of a string that is read gives the value, and the range error when it
overflows. -/
def ParseFloat (lib : FloatLib) (s : String) : Nat × Option GoError :=
  match special s.data with
  | some (f, n) =>
    if n ≠ s.data.length then (0, some (syntaxError "ParseFloat" s)) else (f, none)
  | none =>
    match readFloat s.data with
    | none => (0, some (syntaxError "ParseFloat" s))
    | some rest =>
      if rest ≠ [] then (0, some (syntaxError "ParseFloat" s))
      else
        match lib.atof64 s with
        | (f, true) => (f, some (rangeError "ParseFloat" s))
        | (f, false) => (f, none)

/-! ## package net/textproto and net/http -/

/-- `validHeaderFieldByte` of package textproto: the 128-bit bitmap of the bytes allowed
in a header field name (RFC 7230 token characters). -/
def validHeaderFieldByte (c : Nat) : Bool :=
  let mask : Nat :=
    ((2 ^ 10 - 1) <<< 48) ||| ((2 ^ 26 - 1) <<< 97) ||| ((2 ^ 26 - 1) <<< 65) |||
    (1 <<< 33) ||| (1 <<< 35) ||| (1 <<< 36) ||| (1 <<< 37) ||| (1 <<< 38) ||| (1 <<< 39) |||
    (1 <<< 42) ||| (1 <<< 43) ||| (1 <<< 45) ||| (1 <<< 46) ||| (1 <<< 94) ||| (1 <<< 95) |||
    (1 <<< 96) ||| (1 <<< 124) ||| (1 <<< 126)
  decide (c < 128) && mask.testBit c

/-- The first loop of `canonicalMIMEHeaderKey`: `none` when a byte is neither a valid
field byte nor a space (the key is returned as it is), otherwise `some noCanon`. -/
def scanKey : List Char → Bool → Option Bool
  | [], noCanon => some noCanon
  | c :: cs, noCanon =>
    if validHeaderFieldByte c.toNat then scanKey cs noCanon
    else if c = ' ' then scanKey cs true
    else none

/-- The second loop of `canonicalMIMEHeaderKey`: upper case for the first letter and for
a letter after a dash, lower case elsewhere (`toLower` is `'a' - 'A'`, 32). -/
def canonLoop : List Char → Bool → List Char
  | [], _ => []
  | c :: cs, upper =>
    let c1 : Char :=
      if upper ∧ 97 ≤ c.toNat ∧ c.toNat ≤ 122 then Char.ofNat (c.toNat - 32)
      else if ¬ upper ∧ 65 ≤ c.toNat ∧ c.toNat ≤ 90 then Char.ofNat (c.toNat + 32)
      else c
    c1 :: canonLoop cs (c1 = '-')

/-- `canonicalMIMEHeaderKey` of package textproto (the interning of common headers does
not change the string returned). -/
def canonicalMIMEHeaderKey (a : List Char) : List Char × Bool :=
  if a.length = 0 then ([], false)
  else
    match scanKey a false with
    | none => (a, false)
    | some true => (a, true)
    | some false => (canonLoop a true, true)

/-- The quick check of `CanonicalMIMEHeaderKey`: `rest` is the part of `s` still to be
looked at. -/
def canonicalKeyLoop (s : List Char) : List Char → Bool → List Char
  | [], _ => s
  | c :: rest, upper =>
    if ¬ validHeaderFieldByte c.toNat then s
    else if upper ∧ 97 ≤ c.toNat ∧ c.toNat ≤ 122 then (canonicalMIMEHeaderKey s).1
    else if ¬ upper ∧ 65 ≤ c.toNat ∧ c.toNat ≤ 90 then (canonicalMIMEHeaderKey s).1
    else canonicalKeyLoop s rest (c = '-')

/-- `textproto.CanonicalMIMEHeaderKey`. -/
def CanonicalMIMEHeaderKey (s : String) : String :=
  ⟨canonicalKeyLoop s.data s.data true⟩

/-- `http.Header`, a `map[string][]string`: the entries as stored, each under its raw
key.  The empty list is the empty (or nil) map. -/
abbrev Header := List (String × List String)

/-- The map read `vs, ok := h[k]`: the entry stored under exactly `k`, `none` when the map
has no such key. -/
def Header.find? : Header → String → Option (List String)
  | [], _ => none
  | (k1, vs) :: rest, k => if k1 = k then some vs else Header.find? rest k

/-- The map index `h[k]`: the values stored under exactly `k`, `nil` when there are
none. -/
def Header.index (h : Header) (k : String) : List String :=
  match h.find? k with
  | some vs => vs
  | none => []

/-- `http.Header.Values`: the values stored under the canonical form of `key`. -/
def Header.Values (h : Header) (key : String) : List String :=
  h.index (CanonicalMIMEHeaderKey key)

/-! ## package reflect: kinds, field types, values -/

/-- `reflect.Kind`. -/
inductive Kind
  | Invalid | Bool
  | Int | Int8 | Int16 | Int32 | Int64
  | Uint | Uint8 | Uint16 | Uint32 | Uint64 | Uintptr
  | Float32 | Float64 | Complex64 | Complex128
  | Array | Chan | Func | Interface | Map | Pointer | Slice | String | Struct
  | UnsafePointer
  deriving DecidableEq, Repr

/-- The value held by a struct field.  Floating-point values are their IEEE-754 bits;
`ints` and `floats` hold slices and arrays of numbers (such as `CustomInts`, `[3]byte`),
`empty` is the value of `struct{}`. -/
inductive Value
  | bool (b : Bool)
  | int (n : Int)
  | uint (n : Nat)
  | float (bits : Nat)
  | string (s : String)
  | strings (xs : List String)
  | ints (xs : List Int)
  | floats (xs : List Nat)
  | empty
  deriving DecidableEq, Repr

/-- `CustomUnmarshaler`: the method `UnmarshalHeader([]string) error` of the pointer to a
field, as a function from the field's value and the header values to the value the method
leaves in the field and the error it returns. -/
abbrev CustomUnmarshaler := Value → List String → Value × Option GoError

/-- The declared type of a field (`reflect.StructField.Type`, here `Typ`), as far as the
binder looks at it: its kind; for a slice type, whether a `[]string` value is assignable to
it (its underlying type is `[]string`); and the `UnmarshalHeader` method of its pointer
type, when it has one. -/
structure GoType where
  Kind : Kind
  ElemString : Bool
  Custom : Option CustomUnmarshaler

/-- `reflect.StructField`: name, package path (empty for an exported field, the package of
the struct for an unexported one), type, and the result of `Tag.Lookup(tagIdentifier)`
(`none` when the tag has no `header` key). -/
structure StructField where
  Name : String
  PkgPath : String
  Typ : GoType
  Tag : Option String

/-- `reflect.StructField.IsExported`: the package path is empty. -/
def StructField.IsExported (f : StructField) : Bool := decide (f.PkgPath = "")

/-- The struct `v` points to: its fields in declaration order, each with its value. -/
abbrev Record := List (StructField × Value)

/-- The width in bits of a signed integer kind. -/
def Kind.intBits : Kind → Option Nat
  | .Int => some IntSize
  | .Int8 => some 8
  | .Int16 => some 16
  | .Int32 => some 32
  | .Int64 => some 64
  | _ => none

/-- The width in bits of the unsigned integer kinds the binder handles. -/
def Kind.uintBits : Kind → Option Nat
  | .Uint => some IntSize
  | .Uint8 => some 8
  | .Uint16 => some 16
  | .Uint32 => some 32
  | .Uint64 => some 64
  | _ => none

/-- The signed integer kinds: the case `Int, Int8, Int16, Int32, Int64` of the switch. -/
def isIntKind (k : Kind) : Bool := k.intBits.isSome

/-- The unsigned integer kinds: the case `Uint, Uint8, Uint16, Uint32, Uint64` of the
switch. -/
def isUintKind (k : Kind) : Bool := k.uintBits.isSome

/-- The floating-point kinds: the case `Float32, Float64` of the switch. -/
def isFloatKind (k : Kind) : Bool := decide (k = .Float32 ∨ k = .Float64)

/-- The scalar kinds: the cases of the switch that read `values[0]` only (boolean,
floating-point, signed and unsigned integer, string). -/
def isScalarKind (k : Kind) : Bool :=
  decide (k = .Bool) || isFloatKind k || isIntKind k || isUintKind k || decide (k = .String)

/-- `reflect.Value.SetInt`: the value is converted to the field's own integer type. -/
def SetInt (bits : Nat) (x : Int) : Value := .int (wrapInt bits x)

/-- `reflect.Value.SetUint`: the value is converted to the field's own unsigned type. -/
def SetUint (bits : Nat) (x : Nat) : Value := .uint (x % 2 ^ bits)

/-- `reflect.Value.SetFloat`: a `float32` field receives `float32(x)`. -/
def SetFloat (lib : FloatLib) (k : Kind) (x : Nat) : Value :=
  if k = .Float32 then .float (lib.float32 x) else .float x

/-! ## package headers -/

/-- The loop `for i := 0; i < count; i++ { slice.Index(i).SetString(values[i]) }` of
`setValueFromHeader`, with `n` iterations left; `none` when an index is out of range. -/
def fillSlice (values : List String) : Nat → Nat → List String → Option (List String)
  | 0, _, slice => some slice
  | n + 1, i, slice =>
    match values.get? i with
    | none => none
    | some s => if i < slice.length then fillSlice values n (i + 1) (slice.set i s) else none

/-- The function `setValueFromHeader`: the value left in the field and how the call
ends.  A field of an addressable struct is addressable, so `value.CanAddr()` holds; the
value `r.Field(i)` of an unexported field is read-only, and `value.Addr().Interface()`
panics on it before the type assertion. -/
def setValueFromHeader (lib : FloatLib) (field : StructField) (value : Value)
    (values : List String) : Value × Result :=
  if field.IsExported = false then
    (value, .panic "reflect.Value.Interface: cannot return value obtained from unexported field or method")
  else
  match field.Typ.Custom with
  | some custom =>
    match custom value values with
    | (value1, none) => (value1, .ok)
    | (value1, some e) => (value1, .err e)
  | none =>
    match field.Typ.Kind with
    | .Bool =>
      match values.head? with
      | none => (value, .panic "index out of range [0] with length 0")
      | some s =>
        match ParseBool s with
        | (_, some e) => (value, .err e)
        | (val, none) => (.bool val, .ok)
    | .Float32 | .Float64 =>
      match values.head? with
      | none => (value, .panic "index out of range [0] with length 0")
      | some s =>
        match ParseFloat lib s with
        | (_, some e) => (value, .err e)
        | (val, none) => (SetFloat lib field.Typ.Kind val, .ok)
    | .Int | .Int8 | .Int16 | .Int32 | .Int64 =>
      match values.head? with
      | none => (value, .panic "index out of range [0] with length 0")
      | some s =>
        match ParseInt s 64 with
        | (_, some e) => (value, .err e)
        | (val, none) => (SetInt (field.Typ.Kind.intBits.getD 64) val, .ok)
    | .Uint | .Uint8 | .Uint16 | .Uint32 | .Uint64 =>
      match values.head? with
      | none => (value, .panic "index out of range [0] with length 0")
      | some s =>
        match ParseUint s 64 with
        | (_, some e) => (value, .err e)
        | (val, none) => (SetUint (field.Typ.Kind.uintBits.getD 64) val, .ok)
    | .String =>
      match values.head? with
      | none => (value, .panic "index out of range [0] with length 0")
      | some s => (.string s, .ok)
    | .Slice =>
      let count := values.length
      match fillSlice values count 0 (List.replicate count "") with
      | none => (value, .panic "index out of range")
      | some slice =>
        if field.Typ.ElemString then (.strings slice, .ok)
        else (value, .panic "reflect.Set: value of type []string is not assignable")
    | _ => (value, .err .ErrUnknownType)

/-- The body of the `for` loop of `UnmarshalHeaders` on one field: the three `continue`
branches leave the value alone, the last branch is `setValueFromHeader`. -/
def fieldStep (lib : FloatLib) (h : Header) (f : StructField) (value : Value) :
    Value × Result :=
  match f.Tag with
  | none => (value, .ok)
  | some key =>
    if key = "-" then (value, .ok)
    else if (h.Values key).length = 0 then (value, .ok)
    else setValueFromHeader lib f value (h.Values key)

/-- The `for` loop of `UnmarshalHeaders` over the fields still to be visited: the fields
as the loop leaves them and how it ends.  An error (or a panic) ends the loop at once. -/
def fieldLoop (lib : FloatLib) (h : Header) : Record → Record × Result
  | [] => ([], .ok)
  | (f, value) :: rest =>
    match fieldStep lib h f value with
    | (value1, .ok) => ((f, value1) :: (fieldLoop lib h rest).1, (fieldLoop lib h rest).2)
    | (value1, r) => ((f, value1) :: rest, r)

/-- The function `UnmarshalHeaders`, called with a pointer to the struct `v`: the struct
after the call and how the call ends. -/
def UnmarshalHeaders (lib : FloatLib) (v : Record) (h : Header) : Record × Result :=
  if h.length = 0 then (v, .ok)
  else fieldLoop lib h v

/-! ## The vocabulary of the specification -/

/-- `strconv.FormatUint(n, 10)`: the base-10 decimal form of `n`. -/
def FormatUint (n : Nat) : String := ⟨Nat.toDigits 10 n⟩

/-- `strconv.FormatInt(x, 10)`: the base-10 decimal form of `x`, with `-` for a negative
number. -/
def FormatInt (x : Int) : String :=
  if x < 0 then ⟨'-' :: Nat.toDigits 10 x.natAbs⟩ else FormatUint x.natAbs

/-- `strconv.FormatBool`. -/
def FormatBool (b : Bool) : String := if b then "true" else "false"

/-- `Canonical k x s`: `x` is a value of the exact scalar kind `k` (a boolean, a string,
a signed or unsigned integer that fits the width of `k`) and `s` is its canonical string
form. -/
def Canonical (k : Kind) (x : Value) (s : String) : Prop :=
  match x with
  | .bool b => k = .Bool ∧ s = FormatBool b
  | .int n =>
    match k.intBits with
    | some w => -(2 : Int) ^ (w - 1) ≤ n ∧ n < (2 : Int) ^ (w - 1) ∧ s = FormatInt n
    | none => False
  | .uint n =>
    match k.uintBits with
    | some w => n < 2 ^ w ∧ s = FormatUint n
    | none => False
  | .string t => k = .String ∧ s = t
  | _ => False

/-- A decimal digit, `0` to `9`. -/
def isDecimalDigit (c : Char) : Bool := decide (48 ≤ c.toNat ∧ c.toNat ≤ 57)

/-- One or more decimal digits and nothing else. -/
def isDecimal (cs : List Char) : Bool := !cs.isEmpty && cs.all isDecimalDigit

/-- The string without its sign, when it starts with one `+` or `-`. -/
def unsignedPart (s : String) : List Char :=
  if s.data.head? = some '+' ∨ s.data.head? = some '-' then s.data.tail else s.data

/-- A lexically valid unsigned integer literal: one or more decimal digits. -/
def validUintLiteral (s : String) : Bool := isDecimal s.data

/-- A lexically valid signed integer literal: an optional sign, then one or more decimal
digits. -/
def validIntLiteral (s : String) : Bool := isDecimal (unsignedPart s)

/-- A lexically valid floating-point literal: an infinity or a NaN (`special`), or a
decimal or hexadecimal mantissa and exponent (`readFloat`), that makes up the whole
string. -/
def validFloatLiteral (s : String) : Bool :=
  match special s.data with
  | some (_, n) => decide (n = s.data.length)
  | none => decide (readFloat s.data = some [])

/-- A lexically valid boolean literal: one of the twelve forms `ParseBool` accepts. -/
def validBoolLiteral (s : String) : Bool :=
  decide (s ∈ ["1", "t", "T", "TRUE", "true", "True", "0", "f", "F", "FALSE", "false", "False"])

/-- The number the decimal digits `cs` denote when they follow digits that denote `n`. -/
def decimalFrom (n : Nat) (cs : List Char) : Nat :=
  cs.foldl (fun n c => n * 10 + (c.toNat - 48)) n

/-- The number denoted by the decimal digits at the start of `cs`, up to the first
character that is not a digit. -/
def leadingValue (cs : List Char) : Nat := decimalFrom 0 (cs.takeWhile isDecimalDigit)

/-- The integer a signed literal denotes: its digits read in base 10, negated after
a `-`. -/
def literalValue (s : String) : Int :=
  if s.data.head? = some '-' then -(decimalFrom 0 (unsignedPart s) : Int)
  else (decimalFrom 0 (unsignedPart s) : Int)

/-- The `Err` of the `NumError` for an invalid integer literal with the digits `cs`: the
range error when the leading digits already overflow 64 bits, the syntax error
otherwise. -/
def invalidIntegerErr (cs : List Char) : StrconvErr :=
  if leadingValue cs < 2 ^ 64 then .ErrSyntax else .ErrRange

/-- A key made only of valid header field bytes (letters, digits and the punctuation of
an RFC 7230 token). -/
def validKey (k : String) : Bool := k.data.all (fun c => validHeaderFieldByte c.toNat)

/-- Two characters that are equal or are the upper-case and the lower-case form of one
ASCII letter. -/
def sameLetter (c d : Char) : Bool :=
  decide (c = d) ||
    (decide (65 ≤ c.toNat ∧ c.toNat ≤ 90) && decide (d.toNat = c.toNat + 32)) ||
    (decide (65 ≤ d.toNat ∧ d.toNat ≤ 90) && decide (c.toNat = d.toNat + 32))

/-- Two character sequences of one length that agree place by place up to the case of
ASCII letters. -/
def sameFold : List Char → List Char → Bool
  | [], [] => true
  | c :: cs, d :: ds => sameLetter c d && sameFold cs ds
  | _, _ => false

/-- Two keys that differ only in ASCII letter case. -/
def differOnlyInCase (k1 k2 : String) : Bool := sameFold k1.data k2.data

/-- The field `f` with the `header` tag `key`. -/
def StructField.withTag (f : StructField) (key : String) : StructField :=
  { Name := f.Name, PkgPath := f.PkgPath, Typ := f.Typ, Tag := some key }

/-- The entries of a header map stored under exactly the key `k`. -/
def Header.under (h : Header) (k : String) : Header := h.filter (fun e => decide (e.1 = k))

/-- A result that is the run-time panic of an index out of range: of `values[0]`, or of
`values[i]` in the loop of the slice case. -/
def indexOutOfRange (r : Result) : Bool :=
  match r with
  | .panic msg =>
    decide (msg = "index out of range [0] with length 0") || decide (msg = "index out of range")
  | _ => false

/-- The result of a method that returns an `error`. -/
def Result.ofError : Option GoError → Result
  | none => .ok
  | some e => .err e

/-- The field as one iteration of the loop leaves it. -/
def bound (lib : FloatLib) (h : Header) (slot : StructField × Value) : StructField × Value :=
  (slot.1, (fieldStep lib h slot.1 slot.2).1)

/-- The kinds for which `setValueFromHeader` has no case: every kind but the boolean,
floating-point, integer, string and slice kinds. -/
def unsupportedKind (k : Kind) : Bool :=
  match k with
  | .Bool | .Float32 | .Float64 | .Int | .Int8 | .Int16 | .Int32 | .Int64
  | .Uint | .Uint8 | .Uint16 | .Uint32 | .Uint64 | .String | .Slice => false
  | _ => true

/-! ## The test file `headers_test.go` -/

/-- `strconv.Atoi` (`len` is the length in bytes): the fast path for short strings, the
slow path through `ParseInt(s, 10, 0)`. -/
def Atoi (s : String) : Int × Option GoError :=
  if 0 < s.utf8ByteSize ∧ s.utf8ByteSize < 19 then
    let signed := s.data.head? = some '-' ∨ s.data.head? = some '+'
    let digits := if signed then s.data.tail else s.data
    if signed ∧ digits.length < 1 then (0, some (syntaxError "Atoi" s))
    else if digits.all (fun ch => decide (48 ≤ ch.toNat ∧ ch.toNat ≤ 57)) then
      let n : Int := digits.foldl (fun n ch => n * 10 + ((ch.toNat : Int) - 48)) 0
      (if s.data.head? = some '-' then -n else n, none)
    else (0, some (syntaxError "Atoi" s))
  else
    match ParseInt s 0 with
    | (i64, some (.NumError _ num err)) => (i64, some (.NumError "Atoi" num err))
    | r => r

/-- `(*CustomInts).UnmarshalHeader`: every value is parsed with `Atoi` and appended. -/
def CustomInts.UnmarshalHeader : CustomUnmarshaler
  | ci, [] => (ci, none)
  | .ints xs, s :: rest =>
    match Atoi s with
    | (_, some e) => (.ints xs, some e)
    | (tmp, none) => CustomInts.UnmarshalHeader (.ints (xs ++ [tmp])) rest
  | ci, _ :: _ => (ci, none)

/-- `(*CustomFloats).UnmarshalHeader`: every value is parsed with `ParseFloat` and
appended. -/
def CustomFloats.UnmarshalHeader (lib : FloatLib) : CustomUnmarshaler
  | cf, [] => (cf, none)
  | .floats xs, s :: rest =>
    match ParseFloat lib s with
    | (_, some e) => (.floats xs, some e)
    | (tmp, none) => CustomFloats.UnmarshalHeader lib (.floats (xs ++ [tmp])) rest
  | cf, _ :: _ => (cf, none)

/-- A `FloatLib` for the examples, defined on the literals the test file uses: the values
`0.123`, `1.234` and `0` to `9` with their IEEE-754 bits (and 0 for every other string,
which no example uses). -/
def testFloatLib : FloatLib where
  atof64 s :=
    if s = "0.123" then (4593527504729830064, false)
    else if s = "1.234" then (4608236261112822104, false)
    else if s = "0" then (0, false)
    else if s = "1" then (4607182418800017408, false)
    else if s = "2" then (4611686018427387904, false)
    else if s = "3" then (4613937818241073152, false)
    else if s = "4" then (4616189618054758400, false)
    else if s = "5" then (4617315517961601024, false)
    else if s = "6" then (4618441417868443648, false)
    else if s = "7" then (4619567317775286272, false)
    else if s = "8" then (4620693217682128896, false)
    else if s = "9" then (4621256167635550208, false)
    else (0, false)
  float32 x :=
    if x = 4593527504729830064 then 1039918957
    else if x = 4608236261112822104 then 1067316150
    else x

/-- An exported field of a predeclared type (no methods), with its `header` tag. -/
def plainField (name : String) (k : Kind) (tag : Option String) : StructField :=
  { Name := name, PkgPath := "", Typ := { Kind := k, ElemString := false, Custom := none },
    Tag := tag }

/-- The field `f` as an unexported field of package `headers`, named `name`. -/
def StructField.unexported (f : StructField) (name : String) : StructField :=
  { Name := name, PkgPath := "headers", Typ := f.Typ, Tag := f.Tag }

/-- The field `Slices []string` of `testStruct`. -/
def slicesField : StructField :=
  { Name := "Slices", PkgPath := "", Typ := { Kind := .Slice, ElemString := true, Custom := none },
    Tag := some "x-slice" }

/-- The field `Ints CustomInts` of `testStruct`. -/
def intsField : StructField :=
  { Name := "Ints", PkgPath := "",
    Typ := { Kind := .Slice, ElemString := false, Custom := some CustomInts.UnmarshalHeader },
    Tag := some "x-ints" }

/-- The field `Floats CustomFloats` of `testStruct`. -/
def floatsField (lib : FloatLib) : StructField :=
  { Name := "Floats", PkgPath := "",
    Typ := { Kind := .Slice, ElemString := false,
             Custom := some (CustomFloats.UnmarshalHeader lib) },
    Tag := some "x-floats" }

/-- The fields of `testStruct`, in declaration order. -/
def testStructFields (lib : FloatLib) : List StructField :=
  [ plainField "String" .String (some "x-string"),
    slicesField,
    plainField "Int" .Int (some "x-int"),
    plainField "Int8" .Int8 (some "x-int8"),
    plainField "Int16" .Int16 (some "x-int16"),
    plainField "Int32" .Int32 (some "x-int32"),
    plainField "Int64" .Int64 (some "x-int64"),
    plainField "Uint" .Uint (some "x-uint"),
    plainField "Uint8" .Uint8 (some "x-uint8"),
    plainField "Uint16" .Uint16 (some "x-uint16"),
    plainField "Uint32" .Uint32 (some "x-uint32"),
    plainField "Uint64" .Uint64 (some "x-uint64"),
    plainField "Float32" .Float32 (some "x-float32"),
    plainField "Float64" .Float64 (some "x-float64"),
    plainField "Bool" .Bool (some "x-bool"),
    intsField,
    floatsField lib,
    plainField "SkipKey" .Struct (some "-"),
    plainField "SkipIt" .Struct none ]

/-- The zero value `testStruct{}`: nil slices are empty lists. -/
def testStructZero : List Value :=
  [ .string "", .strings [], .int 0, .int 0, .int 0, .int 0, .int 0,
    .uint 0, .uint 0, .uint 0, .uint 0, .uint 0, .float 0, .float 0, .bool false,
    .ints [], .floats [], .empty, .empty ]

/-- The header map `setTestHeaders()` builds; `Set` and `Add` store every key in its
canonical form. -/
def setTestHeaders : Header :=
  [ ("X-String", ["some-string"]), ("X-Slice", ["some", "slice"]),
    ("X-Int", ["-1"]), ("X-Int8", ["-2"]), ("X-Int16", ["-3"]), ("X-Int32", ["-4"]),
    ("X-Int64", ["-5"]), ("X-Uint", ["1"]), ("X-Uint8", ["2"]), ("X-Uint16", ["3"]),
    ("X-Uint32", ["4"]), ("X-Uint64", ["5"]), ("X-Float32", ["0.123"]),
    ("X-Float64", ["1.234"]), ("X-Bool", ["true"]),
    ("X-Ints", ["0", "1", "2", "3", "4", "5", "6", "7", "8", "9"]),
    ("X-Floats", ["0", "1", "2", "3", "4", "5", "6", "7", "8", "9"]) ]

/-- The values of the struct the case `multiple` of `TestUnmarshalHeaders` expects. -/
def testStructExpected : List Value :=
  [ .string "some-string", .strings ["some", "slice"],
    .int (-1), .int (-2), .int (-3), .int (-4), .int (-5),
    .uint 1, .uint 2, .uint 3, .uint 4, .uint 5,
    .float 1039918957, .float 4608236261112822104, .bool true,
    .ints [0, 1, 2, 3, 4, 5, 6, 7, 8, 9],
    .floats [0, 4607182418800017408, 4611686018427387904, 4613937818241073152,
      4616189618054758400, 4617315517961601024, 4618441417868443648,
      4619567317775286272, 4620693217682128896, 4621256167635550208],
    .empty, .empty ]

/-- The record of a `testStruct` holding the given values. -/
def testRecord (vals : List Value) : Record := (testStructFields testFloatLib).zip vals

/-- The struct of `TestUnknownType`: one field `UnknownType [3]byte`. -/
def unknownTypeRecord : Record :=
  [(plainField "UnknownType" .Array (some "x-unknown-type"), .ints [0, 0, 0])]

/-- The values of the fields of a record. -/
def Record.values (v : Record) : List Value := v.map Prod.snd

/-! ## The loop over the fields -/

theorem fieldLoop_cons_ok (lib : FloatLib) (h : Header) (f : StructField) (v v1 : Value)
    (rest : Record) (hs : fieldStep lib h f v = (v1, .ok)) :
    fieldLoop lib h ((f, v) :: rest)
      = ((f, v1) :: (fieldLoop lib h rest).1, (fieldLoop lib h rest).2) := by
  simp [fieldLoop, hs]

theorem fieldLoop_cons_stop (lib : FloatLib) (h : Header) (f : StructField) (v v1 : Value)
    (r : Result) (rest : Record) (hs : fieldStep lib h f v = (v1, r)) (hr : r ≠ .ok) :
    fieldLoop lib h ((f, v) :: rest) = ((f, v1) :: rest, r) := by
  cases r with
  | ok => exact absurd rfl hr
  | err e => simp [fieldLoop, hs]
  | panic m => simp [fieldLoop, hs]

theorem fieldLoop_append (lib : FloatLib) (h : Header) (pre post : Record)
    (hpre : (fieldLoop lib h pre).2 = .ok) :
    fieldLoop lib h (pre ++ post)
      = ((fieldLoop lib h pre).1 ++ (fieldLoop lib h post).1, (fieldLoop lib h post).2) := by
  induction pre with
  | nil => simp [fieldLoop]
  | cons slot pre ih =>
    obtain ⟨f, v⟩ := slot
    rcases hstep : fieldStep lib h f v with ⟨v1, r⟩
    cases r with
    | ok =>
      rw [fieldLoop_cons_ok lib h f v v1 pre hstep] at hpre ⊢
      rw [List.cons_append, fieldLoop_cons_ok lib h f v v1 (pre ++ post) hstep, ih hpre]
      simp
    | err e =>
      rw [fieldLoop_cons_stop lib h f v v1 _ pre hstep (by simp)] at hpre
      simp at hpre
    | panic m =>
      rw [fieldLoop_cons_stop lib h f v v1 _ pre hstep (by simp)] at hpre
      simp at hpre

theorem fieldLoop_append_stop (lib : FloatLib) (h : Header) (pre post : Record)
    (hpre : (fieldLoop lib h pre).2 ≠ .ok) :
    fieldLoop lib h (pre ++ post)
      = ((fieldLoop lib h pre).1 ++ post, (fieldLoop lib h pre).2) := by
  induction pre with
  | nil => simp [fieldLoop] at hpre
  | cons slot pre ih =>
    obtain ⟨f, v⟩ := slot
    rcases hstep : fieldStep lib h f v with ⟨v1, r⟩
    cases r with
    | ok =>
      rw [fieldLoop_cons_ok lib h f v v1 pre hstep] at hpre ⊢
      rw [List.cons_append, fieldLoop_cons_ok lib h f v v1 (pre ++ post) hstep, ih hpre]
      simp
    | err e =>
      rw [fieldLoop_cons_stop lib h f v v1 _ pre hstep (by simp)]
      rw [List.cons_append, fieldLoop_cons_stop lib h f v v1 _ (pre ++ post) hstep (by simp)]
      simp
    | panic m =>
      rw [fieldLoop_cons_stop lib h f v v1 _ pre hstep (by simp)]
      rw [List.cons_append, fieldLoop_cons_stop lib h f v v1 _ (pre ++ post) hstep (by simp)]
      simp

theorem fieldLoop_length (lib : FloatLib) (h : Header) (v : Record) :
    (fieldLoop lib h v).1.length = v.length := by
  induction v with
  | nil => simp [fieldLoop]
  | cons slot rest ih =>
    obtain ⟨f, x⟩ := slot
    rcases hstep : fieldStep lib h f x with ⟨v1, r⟩
    cases r with
    | ok => rw [fieldLoop_cons_ok lib h f x v1 rest hstep]; simp [ih]
    | err e => rw [fieldLoop_cons_stop lib h f x v1 _ rest hstep (by simp)]; simp
    | panic m => rw [fieldLoop_cons_stop lib h f x v1 _ rest hstep (by simp)]; simp

/-- With a header map that is not empty, `UnmarshalHeaders` is the loop. -/
theorem UnmarshalHeaders_eq_loop (lib : FloatLib) (v : Record) (h : Header) (hne : h ≠ []) :
    UnmarshalHeaders lib v h = fieldLoop lib h v := by
  cases h with
  | nil => exact absurd rfl hne
  | cons e rest => simp [UnmarshalHeaders]

/-- Values found under a key show that the header map is not empty. -/
theorem Header.ne_nil_of_values (h : Header) (key s : String) (rest : List String)
    (hv : h.Values key = s :: rest) : h ≠ [] := by
  intro hnil
  subst hnil
  simp [Header.Values, Header.index, Header.find?] at hv

/-! ## Round trip of the decimal form through `ParseUint` and `ParseInt` -/

theorem digitChar_toNat (d : Nat) (hd : d < 10) : (Nat.digitChar d).toNat = 48 + d := by
  interval_cases d <;> rfl

theorem digitVal_digit (d : Nat) (hd : d < 10) : digitVal (48 + d) = some d := by
  interval_cases d <;> rfl

/-- One step of the loop of `ParseUint` on a decimal digit that does not overflow. -/
theorem parseUintLoop_digit (s0 : String) (d n : Nat) (cs : List Char) (hd : d < 10)
    (hn : n * 10 + d < 2 ^ 64) :
    parseUintLoop s0 ((2 ^ 64 - 1) / 10 + 1) ((2 ^ 64 - 1) % 2 ^ 64) (Nat.digitChar d :: cs) n
      = parseUintLoop s0 ((2 ^ 64 - 1) / 10 + 1) ((2 ^ 64 - 1) % 2 ^ 64) cs (n * 10 + d) := by
  have h10 : (n * 10) % 2 ^ 64 = n * 10 := Nat.mod_eq_of_lt (by omega)
  have h1 : (n * 10 + d) % 2 ^ 64 = n * 10 + d := Nat.mod_eq_of_lt hn
  rw [parseUintLoop, digitChar_toNat d hd, digitVal_digit d hd]
  simp only [h10, h1]
  rw [if_neg (by omega), if_neg (by omega), if_neg (by omega)]

theorem parseUintLoop_toDigitsCore (s0 : String) (fuel : Nat) :
    ∀ (n : Nat) (ds : List Char), n < fuel → n < 2 ^ 64 →
      parseUintLoop s0 ((2 ^ 64 - 1) / 10 + 1) ((2 ^ 64 - 1) % 2 ^ 64)
          (Nat.toDigitsCore 10 fuel n ds) 0
        = parseUintLoop s0 ((2 ^ 64 - 1) / 10 + 1) ((2 ^ 64 - 1) % 2 ^ 64) ds n := by
  induction fuel with
  | zero => intro n ds h; omega
  | succ fuel ih =>
    intro n ds hfuel hn
    have hmod : n % 10 < 10 := Nat.mod_lt _ (by decide)
    simp only [Nat.toDigitsCore]
    by_cases hq : n / 10 = 0
    · rw [if_pos hq, parseUintLoop_digit s0 (n % 10) 0 ds hmod (by omega)]
      congr 1
      omega
    · rw [if_neg hq, ih (n / 10) _ (by omega) (by omega),
        parseUintLoop_digit s0 (n % 10) (n / 10) ds hmod (by omega)]
      congr 1
      omega

theorem toDigitsCore_ne_nil (fuel n : Nat) (ds : List Char) (h : 0 < fuel ∨ ds ≠ []) :
    Nat.toDigitsCore 10 fuel n ds ≠ [] := by
  induction fuel generalizing n ds with
  | zero =>
    rcases h with h | h
    · omega
    · simpa [Nat.toDigitsCore] using h
  | succ fuel ih =>
    simp only [Nat.toDigitsCore]
    split
    · simp
    · exact ih _ _ (Or.inr (by simp))

/-- The first character of a decimal form is a decimal digit. -/
theorem toDigitsCore_head (fuel n : Nat) (ds : List Char)
    (h : 0 < fuel ∨ ∃ d, d < 10 ∧ ds.head? = some (Nat.digitChar d)) :
    ∃ d, d < 10 ∧ (Nat.toDigitsCore 10 fuel n ds).head? = some (Nat.digitChar d) := by
  induction fuel generalizing n ds with
  | zero =>
    rcases h with h | h
    · omega
    · simpa [Nat.toDigitsCore] using h
  | succ fuel ih =>
    have hmod : n % 10 < 10 := Nat.mod_lt _ (by decide)
    simp only [Nat.toDigitsCore]
    split
    · exact ⟨n % 10, hmod, by simp⟩
    · exact ih _ _ (Or.inr ⟨n % 10, hmod, by simp⟩)

theorem digitChar_ne_sign (d : Nat) (hd : d < 10) :
    Nat.digitChar d ≠ '+' ∧ Nat.digitChar d ≠ '-' := by
  interval_cases d <;> decide

theorem string_ne_empty (cs : List Char) (h : cs ≠ []) : (⟨cs⟩ : String) ≠ "" := by
  intro hs
  apply h
  have := congrArg String.data hs
  simpa using this

/-- `ParseUint` reads the decimal form of every 64-bit number back. -/
theorem ParseUint_FormatUint (n : Nat) (hn : n < 2 ^ 64) :
    ParseUint (FormatUint n) 64 = (n, none) := by
  have hne : Nat.toDigits 10 n ≠ [] := toDigitsCore_ne_nil _ _ _ (Or.inl (by omega))
  unfold ParseUint FormatUint
  rw [if_neg (string_ne_empty _ hne)]
  simp only [Nat.toDigits]
  have := parseUintLoop_toDigitsCore ⟨Nat.toDigitsCore 10 (n + 1) n []⟩ (n + 1) n []
    (by omega) hn
  simp only [parseUintLoop] at this
  simpa using this

theorem wrapInt_of_fits (bits : Nat) (x : Int) (hb : 0 < bits)
    (hlo : -(2 : Int) ^ (bits - 1) ≤ x) (hhi : x < (2 : Int) ^ (bits - 1)) :
    wrapInt bits x = x := by
  unfold wrapInt
  have hpow : (2 : Int) ^ bits = 2 * 2 ^ (bits - 1) := by
    obtain ⟨k, rfl⟩ : ∃ k, bits = k + 1 := ⟨bits - 1, by omega⟩
    simp [pow_succ, mul_comm]
  have hpos : (0 : Int) < 2 ^ (bits - 1) := by positivity
  rw [Int.emod_eq_of_lt (by omega) (by omega)]
  omega

/-- `ParseInt` on a string that starts with `-`, when the digits parse. -/
theorem ParseInt_minus_ok (cs : List Char) (un : Nat) (hu : ParseUint ⟨cs⟩ 64 = (un, none))
    (hle : un ≤ 2 ^ 63) :
    ParseInt ⟨'-' :: cs⟩ 64 = (wrapInt 64 (-(wrapInt 64 un)), none) := by
  unfold ParseInt
  rw [if_neg (string_ne_empty _ (by simp))]
  have h64 : ¬ ((64 : Nat) = 0) := by decide
  simp only [List.head?_cons, List.tail_cons, if_true, if_neg h64, ite_self]
  rw [hu]
  simp only []
  rw [if_neg (by simp), if_neg (by simp; omega)]

/-- `ParseInt` on a string that starts with neither `+` nor `-`, when the digits parse. -/
theorem ParseInt_nosign_ok (c : Char) (cs : List Char) (un : Nat) (hp : c ≠ '+') (hm : c ≠ '-')
    (hu : ParseUint ⟨c :: cs⟩ 64 = (un, none)) (hlt : un < 2 ^ 63) :
    ParseInt ⟨c :: cs⟩ 64 = (wrapInt 64 un, none) := by
  unfold ParseInt
  rw [if_neg (string_ne_empty _ (by simp))]
  simp only [List.head?_cons, List.tail_cons, Option.some.injEq]
  have h64 : ¬ ((64 : Nat) = 0) := by decide
  simp only [if_neg hp, if_neg hm, if_neg h64]
  rw [hu]
  simp only []
  rw [if_neg (by simp; omega), if_neg (by simp [hm])]

/-- `ParseInt` reads the decimal form of every 64-bit signed number back. -/
theorem ParseInt_FormatInt (x : Int) (hlo : -(2 : Int) ^ 63 ≤ x) (hhi : x < (2 : Int) ^ 63) :
    ParseInt (FormatInt x) 64 = (x, none) := by
  by_cases hneg : x < 0
  · have hk : x.natAbs ≤ 2 ^ 63 := by omega
    have hu := ParseUint_FormatUint x.natAbs (by omega)
    unfold FormatUint at hu
    unfold FormatInt
    rw [if_pos hneg, ParseInt_minus_ok _ _ hu hk]
    simp only [Prod.mk.injEq, and_true]
    unfold wrapInt
    omega
  · have hk : x.natAbs < 2 ^ 63 := by omega
    have hu := ParseUint_FormatUint x.natAbs (by omega)
    obtain ⟨d, hd, hhead⟩ := toDigitsCore_head (x.natAbs + 1) x.natAbs [] (Or.inl (by omega))
    obtain ⟨hplus, hminus⟩ := digitChar_ne_sign d hd
    unfold FormatInt
    rw [if_neg hneg]
    unfold FormatUint at hu ⊢
    rw [Nat.toDigits] at hu ⊢
    cases hds : Nat.toDigitsCore 10 (x.natAbs + 1) x.natAbs [] with
    | nil => rw [hds] at hhead; simp at hhead
    | cons c cs =>
      rw [hds] at hhead hu
      simp only [List.head?_cons, Option.some.injEq] at hhead
      subst hhead
      rw [ParseInt_nosign_ok _ _ _ hplus hminus hu hk]
      simp only [Prod.mk.injEq, and_true]
      unfold wrapInt
      omega

/-! ## One field -/

/-- A field with a key that has values in the map is handed to `setValueFromHeader`. -/
theorem fieldStep_bound (lib : FloatLib) (h : Header) (f : StructField) (v : Value)
    (key s : String) (rest : List String) (htag : f.Tag = some key) (hkey : key ≠ "-")
    (hvals : h.Values key = s :: rest) :
    fieldStep lib h f v = setValueFromHeader lib f v (s :: rest) := by
  simp [fieldStep, htag, hkey, hvals]

/-- The result of the call when the fields before the one looked at bind without error:
the loop reaches the field, and goes on after it exactly when its own step is fine. -/
theorem UnmarshalHeaders_at (lib : FloatLib) (pre post : Record) (f : StructField)
    (v v1 : Value) (r : Result) (h : Header) (hne : h ≠ [])
    (hpre : (UnmarshalHeaders lib pre h).2 = .ok) (hstep : fieldStep lib h f v = (v1, r)) :
    UnmarshalHeaders lib (pre ++ (f, v) :: post) h
      = if r = .ok then
          ((UnmarshalHeaders lib pre h).1 ++ (f, v1) :: (UnmarshalHeaders lib post h).1,
            (UnmarshalHeaders lib post h).2)
        else ((UnmarshalHeaders lib pre h).1 ++ (f, v1) :: post, r) := by
  rw [UnmarshalHeaders_eq_loop lib _ h hne] at hpre ⊢
  rw [UnmarshalHeaders_eq_loop lib pre h hne, UnmarshalHeaders_eq_loop lib post h hne,
    fieldLoop_append lib h pre _ hpre]
  by_cases hr : r = .ok
  · subst hr
    rw [fieldLoop_cons_ok lib h f v v1 post hstep]
    simp
  · rw [fieldLoop_cons_stop lib h f v v1 r post hstep hr]
    simp [hr]

theorem setValueFromHeader_canonical (lib : FloatLib) (f : StructField) (v x : Value)
    (s : String) (rest : List String) (hexp : f.IsExported = true)
    (hcustom : f.Typ.Custom = none) (hcanon : Canonical f.Typ.Kind x s) :
    setValueFromHeader lib f v (s :: rest) = (x, .ok) := by
  unfold setValueFromHeader
  rw [if_neg (by simp [hexp]), hcustom]
  cases x with
  | bool b =>
    obtain ⟨hk, hs⟩ := hcanon
    subst hs
    simp only [hk, List.head?_cons]
    cases b <;> simp [FormatBool, ParseBool]
  | int n =>
    simp only [Canonical] at hcanon
    cases hk : f.Typ.Kind <;> simp only [hk, Kind.intBits] at hcanon <;>
      obtain ⟨hlo, hhi, hs⟩ := hcanon <;> subst hs <;>
      simp only [List.head?_cons, Kind.intBits, Option.getD_some, IntSize] at hlo hhi ⊢ <;>
      rw [ParseInt_FormatInt n (by omega) (by omega)] <;>
      simp only [SetInt] <;>
      rw [wrapInt_of_fits _ n (by decide) hlo hhi]
  | uint n =>
    simp only [Canonical] at hcanon
    cases hk : f.Typ.Kind <;> simp only [hk, Kind.uintBits] at hcanon <;>
      obtain ⟨hlt, hs⟩ := hcanon <;> subst hs <;>
      simp only [List.head?_cons, Kind.uintBits, Option.getD_some, IntSize] at hlt ⊢ <;>
      rw [ParseUint_FormatUint n (by omega)] <;>
      simp only [SetUint] <;>
      rw [Nat.mod_eq_of_lt hlt]
  | string t =>
    obtain ⟨hk, hs⟩ := hcanon
    subst hs
    simp only [hk, List.head?_cons]
  | float b => exact absurd hcanon (by simp [Canonical])
  | strings xs => exact absurd hcanon (by simp [Canonical])
  | ints xs => exact absurd hcanon (by simp [Canonical])
  | floats xs => exact absurd hcanon (by simp [Canonical])
  | empty => exact absurd hcanon (by simp [Canonical])

theorem UnmarshalHeaders_length (lib : FloatLib) (v : Record) (h : Header) :
    (UnmarshalHeaders lib v h).1.length = v.length := by
  unfold UnmarshalHeaders
  split
  · rfl
  · exact fieldLoop_length lib h v

/-- The field that follows the fields `pre` in a list. -/
theorem get?_after (front pre rest : Record) (slot : StructField × Value)
    (hlen : front.length = pre.length) : (front ++ slot :: rest)[pre.length]? = some slot := by
  rw [← hlen, List.getElem?_append_right (le_refl _)]
  simp

/-! ## The properties of the specification -/

/-- C1, as amended.  Round trip for the exact scalar kinds: an exported field of a
predeclared signed or unsigned integer type of any width (kinds `Int` to `Int64`, `Uint`
to `Uint64`), of type `bool` or of type `string` is bound from a key whose first value is
the canonical string form of a value `x` of that type (`Canonical`).  When the fields
before it bind without error, the field holds `x` afterwards, and the call ends as the
bind of the fields after it ends: it returns no error when they bind without error. -/
theorem roundtrip_exact_scalars (lib : FloatLib) (pre post : Record) (f : StructField)
    (v x : Value) (h : Header) (key s : String) (rest : List String)
    (htag : f.Tag = some key) (hkey : key ≠ "-") (hexp : f.IsExported = true)
    (hcustom : f.Typ.Custom = none)
    (hvals : h.Values key = s :: rest) (hcanon : Canonical f.Typ.Kind x s)
    (hpre : (UnmarshalHeaders lib pre h).2 = .ok) :
    (UnmarshalHeaders lib (pre ++ (f, v) :: post) h).1[pre.length]? = some (f, x) ∧
      (UnmarshalHeaders lib (pre ++ (f, v) :: post) h).2 = (UnmarshalHeaders lib post h).2 ∧
      ((UnmarshalHeaders lib post h).2 = .ok →
        (UnmarshalHeaders lib (pre ++ (f, v) :: post) h).2 = .ok) := by
  have hne := Header.ne_nil_of_values h key s rest hvals
  have hstep : fieldStep lib h f v = (x, .ok) := by
    rw [fieldStep_bound lib h f v key s rest htag hkey hvals]
    exact setValueFromHeader_canonical lib f v x s rest hexp hcustom hcanon
  rw [UnmarshalHeaders_at lib pre post f v x .ok h hne hpre hstep]
  rw [if_pos rfl]
  exact ⟨get?_after _ pre _ _ (UnmarshalHeaders_length lib pre h), rfl, fun hpost => hpost⟩

/-- The round trip of C1 at the field `Int8` of `testStruct`, bound from `-2` among the
headers of the test file: the field ends as `-2` and the call returns no error. -/
theorem roundtrip_exact_scalars_witness :
    (UnmarshalHeaders testFloatLib
        ((testRecord testStructZero).take 3 ++
          (plainField "Int8" .Int8 (some "x-int8"), .int 0) ::
            (testRecord testStructZero).drop 4)
        setTestHeaders).1[((testRecord testStructZero).take 3).length]?
        = some (plainField "Int8" .Int8 (some "x-int8"), .int (-2)) ∧
    (UnmarshalHeaders testFloatLib
        ((testRecord testStructZero).take 3 ++
          (plainField "Int8" .Int8 (some "x-int8"), .int 0) ::
            (testRecord testStructZero).drop 4) setTestHeaders).2 = .ok :=
  have hall := roundtrip_exact_scalars testFloatLib ((testRecord testStructZero).take 3)
    ((testRecord testStructZero).drop 4) (plainField "Int8" .Int8 (some "x-int8")) (.int 0)
    (.int (-2)) setTestHeaders "x-int8" "-2" [] rfl (by decide) rfl rfl (by decide)
    (show (-(2 : Int) ^ (8 - 1) ≤ -2 ∧ (-2 : Int) < 2 ^ (8 - 1) ∧ "-2" = FormatInt (-2)) from
      ⟨by decide, by decide, by decide⟩)
    (by decide)
  ⟨hall.1, hall.2.2 (by decide)⟩

/-- C1 as it is stated fails for an unexported field: the field `secret int` tagged
`x-secret`, with the header `X-Secret: 5` (`5` is the canonical form of 5).  The call
panics in `value.Addr().Interface()` and the field still holds 0. -/
theorem roundtrip_unexported_panics :
    FormatInt 5 = "5" ∧
    (UnmarshalHeaders testFloatLib
        [((plainField "Secret" .Int (some "x-secret")).unexported "secret", .int 0)]
        [("X-Secret", ["5"])]).2
      = .panic "reflect.Value.Interface: cannot return value obtained from unexported field or method" ∧
    (UnmarshalHeaders testFloatLib
        [((plainField "Secret" .Int (some "x-secret")).unexported "secret", .int 0)]
        [("X-Secret", ["5"])]).1.values = [.int 0] := by
  decide

/-- The loop that fills the new slice copies every value to its own place: the places
before `i` are filled, the loop fills the rest. -/
theorem fillSlice_spec (values : List String) :
    ∀ (n i : Nat) (slice : List String), i + n = values.length →
      slice.length = values.length → (∀ j, j < i → slice[j]? = values[j]?) →
      fillSlice values n i slice = some values := by
  intro n
  induction n with
  | zero =>
    intro i slice hi hlen hfilled
    simp only [fillSlice, Option.some.injEq]
    apply List.ext_getElem?
    intro j
    by_cases hj : j < i
    · exact hfilled j hj
    · rw [List.getElem?_eq_none (by omega), List.getElem?_eq_none (by omega)]
  | succ n ih =>
    intro i slice hi hlen hfilled
    have hlt : i < values.length := by omega
    simp only [fillSlice, List.get?_eq_getElem?, List.getElem?_eq_getElem hlt]
    rw [if_pos (by omega)]
    apply ih (i + 1) _ (by omega) (by simpa using hlen)
    intro j hj
    by_cases hji : i = j
    · subst hji
      rw [List.getElem?_set_self (by omega), List.getElem?_eq_getElem hlt]
    · rw [List.getElem?_set_ne hji]
      exact hfilled j (by omega)

theorem setValueFromHeader_slice (lib : FloatLib) (f : StructField) (v : Value)
    (vs : List String) (hexp : f.IsExported = true) (hcustom : f.Typ.Custom = none)
    (hkind : f.Typ.Kind = .Slice) (helem : f.Typ.ElemString = true) :
    setValueFromHeader lib f v vs = (.strings vs, .ok) := by
  have hfill := fillSlice_spec vs vs.length 0 (List.replicate vs.length "") (by omega)
    (by simp) (fun j hj => absurd hj (by omega))
  simp [setValueFromHeader, hexp, hcustom, hkind, hfill, helem]

/-- C2, as amended.  An exported field of type slice-of-string (no `UnmarshalHeader`
method) whose key holds the non-empty value list `vs`: when the fields before it bind
without error, the field is
exactly `vs` afterwards (same length, same elements, same order), whatever it held before,
and the call ends as the bind of the fields after it ends: it returns no error when they
bind without error. -/
theorem slice_of_string_bound (lib : FloatLib) (pre post : Record) (f : StructField)
    (v : Value) (h : Header) (key : String) (vs : List String)
    (htag : f.Tag = some key) (hkey : key ≠ "-") (hexp : f.IsExported = true)
    (hcustom : f.Typ.Custom = none)
    (hkind : f.Typ.Kind = .Slice) (helem : f.Typ.ElemString = true)
    (hvals : h.Values key = vs) (hne : vs ≠ [])
    (hpre : (UnmarshalHeaders lib pre h).2 = .ok) :
    (UnmarshalHeaders lib (pre ++ (f, v) :: post) h).1[pre.length]?
        = some (f, .strings vs) ∧
      (UnmarshalHeaders lib (pre ++ (f, v) :: post) h).2 = (UnmarshalHeaders lib post h).2 ∧
      ((UnmarshalHeaders lib post h).2 = .ok →
        (UnmarshalHeaders lib (pre ++ (f, v) :: post) h).2 = .ok) := by
  obtain ⟨s, rest, rfl⟩ : ∃ s rest, vs = s :: rest := by
    cases vs with
    | nil => exact absurd rfl hne
    | cons s rest => exact ⟨s, rest, rfl⟩
  have hmap := Header.ne_nil_of_values h key s rest hvals
  have hstep : fieldStep lib h f v = (.strings (s :: rest), .ok) := by
    rw [fieldStep_bound lib h f v key s rest htag hkey hvals]
    exact setValueFromHeader_slice lib f v _ hexp hcustom hkind helem
  rw [UnmarshalHeaders_at lib pre post f v _ .ok h hmap hpre hstep]
  rw [if_pos rfl]
  exact ⟨get?_after _ pre _ _ (UnmarshalHeaders_length lib pre h), rfl, fun hpost => hpost⟩

/-- The field `Slices` of `testStruct`, holding other strings before the call, ends as
`["some", "slice"]` under the headers of the test file, and the call returns no error. -/
theorem slice_of_string_bound_witness :
    (UnmarshalHeaders testFloatLib
        ((testRecord testStructZero).take 1 ++ (slicesField, .strings ["old", "values", "x"]) ::
          (testRecord testStructZero).drop 2)
        setTestHeaders).1[((testRecord testStructZero).take 1).length]?
        = some (slicesField, .strings ["some", "slice"]) ∧
    (UnmarshalHeaders testFloatLib
        ((testRecord testStructZero).take 1 ++ (slicesField, .strings ["old", "values", "x"]) ::
          (testRecord testStructZero).drop 2) setTestHeaders).2 = .ok :=
  have hall := slice_of_string_bound testFloatLib ((testRecord testStructZero).take 1)
    ((testRecord testStructZero).drop 2) slicesField (.strings ["old", "values", "x"])
    setTestHeaders "x-slice" ["some", "slice"] rfl (by decide) rfl rfl rfl rfl (by decide)
    (by decide) (by decide)
  ⟨hall.1, hall.2.2 (by decide)⟩

/-- C2 as it is stated fails for an unexported field: the field `slices []string` tagged
`x-slice`, with the header `X-Slice: some, slice`.  The call panics in
`value.Addr().Interface()` and the field still holds its old contents. -/
theorem slice_unexported_panics :
    (UnmarshalHeaders testFloatLib [(slicesField.unexported "slices", .strings ["old"])]
        [("X-Slice", ["some", "slice"])]).2
      = .panic "reflect.Value.Interface: cannot return value obtained from unexported field or method" ∧
    (UnmarshalHeaders testFloatLib [(slicesField.unexported "slices", .strings ["old"])]
        [("X-Slice", ["some", "slice"])]).1.values = [.strings ["old"]] := by
  decide

/-- C3, as amended.  Custom hook precedence: when the type of an exported field has an
`UnmarshalHeader` method, `setValueFromHeader` hands the whole value list to the method, leaves in the field what the
method left there and returns exactly what the method returned (`nil` or its error),
whatever the kind of the field's type is and for every value list, the non-empty ones
included: no built-in conversion runs. -/
theorem custom_hook_precedence (lib : FloatLib) (f : StructField) (v : Value)
    (vs : List String) (custom : CustomUnmarshaler) (hexp : f.IsExported = true)
    (hcustom : f.Typ.Custom = some custom) :
    setValueFromHeader lib f v vs = ((custom v vs).1, Result.ofError (custom v vs).2) := by
  unfold setValueFromHeader
  rw [if_neg (by simp [hexp]), hcustom]
  simp only
  generalize custom v vs = res
  rcases res with ⟨v1, _ | e⟩ <;> rfl

/-- The field `Ints CustomInts` (a slice kind) given the values `0` to `9` ends as the
integers 0 to 9, not as a slice of strings. -/
theorem custom_hook_precedence_witness :
    setValueFromHeader testFloatLib intsField (.ints [])
        ["0", "1", "2", "3", "4", "5", "6", "7", "8", "9"]
      = (.ints [0, 1, 2, 3, 4, 5, 6, 7, 8, 9], .ok) :=
  (custom_hook_precedence testFloatLib intsField (.ints [])
    ["0", "1", "2", "3", "4", "5", "6", "7", "8", "9"] CustomInts.UnmarshalHeader
    rfl rfl).trans (by decide)

/-- C3 as it is stated fails for an unexported field: for the field `ints CustomInts`
tagged `x-ints`, `setValueFromHeader` panics in `value.Addr().Interface()` before the type
assertion; the method, which would leave the integers 0 and 1 and return `nil`, is not
called. -/
theorem custom_hook_unexported_panics :
    setValueFromHeader testFloatLib (intsField.unexported "ints") (.ints []) ["0", "1"]
      = (.ints [],
          .panic "reflect.Value.Interface: cannot return value obtained from unexported field or method") ∧
    CustomInts.UnmarshalHeader (.ints []) ["0", "1"] = (.ints [0, 1], none) := by
  decide

/-- A built-in conversion that does not succeed leaves the field as it was: every
assignment comes after the last point of failure. -/
theorem setValueFromHeader_builtin_unchanged (lib : FloatLib) (f : StructField) (v : Value)
    (vs : List String) (hcustom : f.Typ.Custom = none)
    (hfail : (setValueFromHeader lib f v vs).2 ≠ .ok) :
    (setValueFromHeader lib f v vs).1 = v := by
  unfold setValueFromHeader at hfail ⊢
  by_cases hexp : f.IsExported = false
  · rw [if_pos hexp]
  · rw [if_neg hexp] at hfail ⊢
    rw [hcustom] at hfail ⊢
    simp only at hfail ⊢
    split <;> (try split) <;> (try split) <;> simp_all

theorem fieldStep_builtin_unchanged (lib : FloatLib) (h : Header) (f : StructField)
    (v : Value) (hcustom : f.Typ.Custom = none) (hfail : (fieldStep lib h f v).2 ≠ .ok) :
    (fieldStep lib h f v).1 = v := by
  cases htag : f.Tag with
  | none => simp [fieldStep, htag]
  | some key =>
    by_cases hkey : key = "-"
    · simp [fieldStep, htag, hkey]
    · by_cases hlen : (h.Values key).length = 0
      · simp [fieldStep, htag, hkey, hlen]
      · have hstep : fieldStep lib h f v = setValueFromHeader lib f v (h.Values key) := by
          simp [fieldStep, htag, hkey, hlen]
        rw [hstep] at hfail ⊢
        exact setValueFromHeader_builtin_unchanged lib f v _ hcustom hfail

/-- A loop that ends without error has left every field as its own iteration leaves
it. -/
theorem fieldLoop_ok_values (lib : FloatLib) (h : Header) (v : Record)
    (hok : (fieldLoop lib h v).2 = .ok) : (fieldLoop lib h v).1 = v.map (bound lib h) := by
  induction v with
  | nil => simp [fieldLoop]
  | cons slot rest ih =>
    obtain ⟨f, x⟩ := slot
    rcases hstep : fieldStep lib h f x with ⟨v1, r⟩
    cases r with
    | ok =>
      rw [fieldLoop_cons_ok lib h f x v1 rest hstep] at hok ⊢
      simp [ih hok, bound, hstep]
    | err e =>
      rw [fieldLoop_cons_stop lib h f x v1 _ rest hstep (by simp)] at hok
      simp at hok
    | panic m =>
      rw [fieldLoop_cons_stop lib h f x v1 _ rest hstep (by simp)] at hok
      simp at hok

/-- C4. First error wins, with partial mutation: `pre` are the fields before field `i`,
which bind without error, and the conversion of field `i`, of a built-in type, fails with
the error `e`.  Then `UnmarshalHeaders` returns exactly `e`; every field before `i` holds
what its own iteration gives it (the value set from its key, or its old value when it is
skipped), as after the successful bind of these fields alone; field `i` and every field
after it keep the values they had, whatever the map holds for them. -/
theorem first_error_wins (lib : FloatLib) (pre post : Record) (f : StructField) (v : Value)
    (h : Header) (e : GoError) (hcustom : f.Typ.Custom = none)
    (hpre : (UnmarshalHeaders lib pre h).2 = .ok)
    (hfail : (fieldStep lib h f v).2 = .err e) :
    UnmarshalHeaders lib (pre ++ (f, v) :: post) h
        = (pre.map (bound lib h) ++ (f, v) :: post, .err e) ∧
      (UnmarshalHeaders lib pre h).1 = pre.map (bound lib h) := by
  have hne : h ≠ [] := by
    intro hnil
    subst hnil
    cases htag : f.Tag <;> simp [fieldStep, htag, Header.Values, Header.index, Header.find?]
      at hfail
  have hv : (fieldStep lib h f v).1 = v :=
    fieldStep_builtin_unchanged lib h f v hcustom (by rw [hfail]; simp)
  have hstep : fieldStep lib h f v = (v, .err e) := Prod.ext hv hfail
  have hvals : (UnmarshalHeaders lib pre h).1 = pre.map (bound lib h) := by
    rw [UnmarshalHeaders_eq_loop lib pre h hne] at hpre ⊢
    exact fieldLoop_ok_values lib h pre hpre
  rw [UnmarshalHeaders_at lib pre post f v v (.err e) h hne hpre hstep, hvals]
  simp

/-- In a `testStruct` whose key `X-Int16` holds `bad`, the fields `String` and `Int8` are
set, the call returns the error of `Int16`, and `Int32`, whose key holds `7`, is left
alone. -/
theorem first_error_wins_witness :
    UnmarshalHeaders testFloatLib
        ((testRecord testStructZero).take 4 ++
          (plainField "Int16" .Int16 (some "x-int16"), .int 0) ::
            (testRecord testStructZero).drop 5)
        [("X-String", ["s"]), ("X-Int8", ["-2"]), ("X-Int16", ["bad"]), ("X-Int32", ["7"])]
      = (((testRecord testStructZero).take 4).map
            (bound testFloatLib
              [("X-String", ["s"]), ("X-Int8", ["-2"]), ("X-Int16", ["bad"]),
                ("X-Int32", ["7"])]) ++
          (plainField "Int16" .Int16 (some "x-int16"), .int 0) ::
            (testRecord testStructZero).drop 5,
          .err (.NumError "ParseInt" "bad" .ErrSyntax)) ∧
      (UnmarshalHeaders testFloatLib ((testRecord testStructZero).take 4)
          [("X-String", ["s"]), ("X-Int8", ["-2"]), ("X-Int16", ["bad"]),
            ("X-Int32", ["7"])]).1
        = ((testRecord testStructZero).take 4).map
            (bound testFloatLib
              [("X-String", ["s"]), ("X-Int8", ["-2"]), ("X-Int16", ["bad"]),
                ("X-Int32", ["7"])]) :=
  first_error_wins testFloatLib ((testRecord testStructZero).take 4)
    ((testRecord testStructZero).drop 5) (plainField "Int16" .Int16 (some "x-int16")) (.int 0)
    [("X-String", ["s"]), ("X-Int8", ["-2"]), ("X-Int16", ["bad"]), ("X-Int32", ["7"])]
    (.NumError "ParseInt" "bad" .ErrSyntax) rfl (by decide) (by decide)

/-! ## Invalid integer literals -/

theorem decimalFrom_ge (cs : List Char) : ∀ n, n ≤ decimalFrom n cs := by
  induction cs with
  | nil => intro n; simp [decimalFrom]
  | cons c cs ih =>
    intro n
    have := ih (n * 10 + (c.toNat - 48))
    simp only [decimalFrom, List.foldl_cons] at this ⊢
    omega

theorem digitVal_of_digit (c : Nat) (h1 : 48 ≤ c) (h2 : c ≤ 57) :
    digitVal c = some (c - 48) := by
  simp [digitVal, h1, h2]

/-- A byte that is not a decimal digit is no digit of base 10: the switch of `ParseUint`
takes its `default` case, or finds a digit of 10 or more. -/
theorem digitVal_of_nondigit (c : Nat) (h : ¬ (48 ≤ c ∧ c ≤ 57)) :
    digitVal c = none ∨ ∃ d, digitVal c = some d ∧ 10 ≤ d := by
  unfold digitVal
  rw [if_neg h]
  split
  · exact Or.inr ⟨_, rfl, by omega⟩
  · exact Or.inl rfl

/-- The loop of `ParseUint` on bytes that are not all decimal digits: a syntax error, or a
range error when the digits before the first other byte overflow. -/
theorem parseUintLoop_invalid (s0 : String) (cs : List Char) :
    ∀ n, n < 2 ^ 64 → cs.all isDecimalDigit = false →
      parseUintLoop s0 ((2 ^ 64 - 1) / 10 + 1) ((2 ^ 64 - 1) % 2 ^ 64) cs n
        = if decimalFrom n (cs.takeWhile isDecimalDigit) < 2 ^ 64 then
            (0, some (syntaxError "ParseUint" s0))
          else (2 ^ 64 - 1, some (rangeError "ParseUint" s0)) := by
  induction cs with
  | nil => intro n _ hall; simp at hall
  | cons c cs ih =>
    intro n hn hall
    by_cases hc : isDecimalDigit c = true
    · have hcs : cs.all isDecimalDigit = false := by
        simpa [List.all_cons, hc] using hall
      have hc2 : 48 ≤ c.toNat ∧ c.toNat ≤ 57 := by simpa [isDecimalDigit] using hc
      have hd : c.toNat - 48 < 10 := by omega
      rw [List.takeWhile_cons, if_pos hc]
      have hstep : decimalFrom n (c :: cs.takeWhile isDecimalDigit)
          = decimalFrom (n * 10 + (c.toNat - 48)) (cs.takeWhile isDecimalDigit) := by
        simp [decimalFrom]
      have hge := decimalFrom_ge (cs.takeWhile isDecimalDigit) (n * 10 + (c.toNat - 48))
      rw [hstep, parseUintLoop, digitVal_of_digit _ hc2.1 hc2.2]
      simp only
      rw [if_neg (by omega)]
      by_cases hcut : n ≥ (2 ^ 64 - 1) / 10 + 1
      · rw [if_pos hcut, if_neg (by omega)]
        exact Prod.ext (by norm_num) rfl
      · rw [if_neg hcut]
        have h10 : (n * 10) % 2 ^ 64 = n * 10 := Nat.mod_eq_of_lt (by omega)
        rw [h10]
        by_cases hov : n * 10 + (c.toNat - 48) < 2 ^ 64
        · rw [Nat.mod_eq_of_lt hov, if_neg (by omega)]
          exact ih _ hov hcs
        · have hmod : (n * 10 + (c.toNat - 48)) % 2 ^ 64
              = n * 10 + (c.toNat - 48) - 2 ^ 64 := by
            rw [Nat.mod_eq_sub_mod (by omega), Nat.mod_eq_of_lt (by omega)]
          rw [hmod, if_pos (Or.inl (by omega)), if_neg (by omega)]
          exact Prod.ext (by norm_num) rfl
    · have hc2 : ¬ (48 ≤ c.toNat ∧ c.toNat ≤ 57) := by simpa [isDecimalDigit] using hc
      rw [List.takeWhile_cons, if_neg hc]
      simp only [decimalFrom, List.foldl_nil]
      rw [if_pos hn, parseUintLoop]
      rcases digitVal_of_nondigit c.toNat hc2 with hnone | ⟨d, hsome, hd⟩
      · rw [hnone]
      · rw [hsome]
        simp only
        rw [if_pos hd]

theorem isDecimal_false (cs : List Char) (h : isDecimal cs = false) :
    cs = [] ∨ cs.all isDecimalDigit = false := by
  cases cs with
  | nil => exact Or.inl rfl
  | cons c cs => right; simpa [isDecimal] using h

/-- `ParseUint` on a string that is not one or more decimal digits. -/
theorem ParseUint_invalid (cs : List Char) (h : isDecimal cs = false) :
    ParseUint ⟨cs⟩ 64
      = if leadingValue cs < 2 ^ 64 then (0, some (syntaxError "ParseUint" ⟨cs⟩))
        else (2 ^ 64 - 1, some (rangeError "ParseUint" ⟨cs⟩)) := by
  rcases isDecimal_false cs h with hnil | hall
  · subst hnil
    decide
  · have hne : cs ≠ [] := by
      intro hnil
      subst hnil
      simp at hall
    unfold ParseUint
    rw [if_neg (string_ne_empty _ hne)]
    exact parseUintLoop_invalid ⟨cs⟩ cs 0 (by decide) hall

/-- `ParseInt` on a string that is not an optional sign followed by one or more decimal
digits: a `NumError` of `ParseInt` for the whole string, with the syntax error, or with the
range error when the digits before the first offending byte overflow. -/
theorem ParseInt_invalid (s : String) (h : validIntLiteral s = false) :
    (ParseInt s 64).2 = some (.NumError "ParseInt" s (invalidIntegerErr (unsignedPart s))) := by
  obtain ⟨data⟩ := s
  have h64 : ¬ ((64 : Nat) = 0) := by decide
  cases data with
  | nil => decide
  | cons c cs =>
    unfold validIntLiteral at h
    unfold ParseInt
    rw [if_neg (string_ne_empty _ (by simp))]
    by_cases hp : c = '+'
    · subst hp
      have hu : unsignedPart ⟨'+' :: cs⟩ = cs := by simp [unsignedPart]
      rw [hu] at h ⊢
      simp only [List.head?_cons, List.tail_cons, if_true, if_neg h64]
      rw [ParseUint_invalid cs h]
      unfold invalidIntegerErr
      by_cases hv : leadingValue cs < 2 ^ 64
      · rw [if_pos hv, if_pos hv]
        simp [syntaxError]
      · rw [if_neg hv, if_neg hv]
        simp [rangeError]
    · by_cases hm : c = '-'
      · subst hm
        have hu : unsignedPart ⟨'-' :: cs⟩ = cs := by simp [unsignedPart]
        rw [hu] at h ⊢
        simp only [List.head?_cons, List.tail_cons, if_true, if_neg h64, ite_self]
        rw [ParseUint_invalid cs h]
        unfold invalidIntegerErr
        by_cases hv : leadingValue cs < 2 ^ 64
        · rw [if_pos hv, if_pos hv]
          simp [syntaxError]
        · rw [if_neg hv, if_neg hv]
          simp [rangeError]
      · have hu : unsignedPart ⟨c :: cs⟩ = c :: cs := by simp [unsignedPart, hp, hm]
        rw [hu] at h ⊢
        simp only [List.head?_cons, Option.some.injEq, if_neg hp, if_neg hm, if_neg h64]
        rw [ParseUint_invalid (c :: cs) h]
        unfold invalidIntegerErr
        by_cases hv : leadingValue (c :: cs) < 2 ^ 64
        · rw [if_pos hv, if_pos hv]
          simp [syntaxError]
        · rw [if_neg hv, if_neg hv]
          simp [rangeError, hm]

theorem ParseUint_invalid_err (s : String) (h : validUintLiteral s = false) :
    (ParseUint s 64).2 = some (.NumError "ParseUint" s (invalidIntegerErr s.data)) := by
  obtain ⟨data⟩ := s
  unfold validUintLiteral at h
  rw [ParseUint_invalid data h]
  unfold invalidIntegerErr
  by_cases hv : leadingValue data < 2 ^ 64
  · rw [if_pos hv, if_pos hv]
    rfl
  · rw [if_neg hv, if_neg hv]
    rfl

theorem ParseBool_invalid (s : String) (h : validBoolLiteral s = false) :
    ParseBool s = (false, some (.NumError "ParseBool" s .ErrSyntax)) := by
  simp only [validBoolLiteral, decide_eq_false_iff_not, List.mem_cons, List.mem_singleton,
    List.mem_nil_iff, or_false, not_or] at h
  unfold ParseBool
  rw [if_neg (by tauto), if_neg (by tauto)]
  rfl

/-- A built-in conversion of a first value the parser rejects returns the parser's error
and leaves the field alone. -/
theorem setValueFromHeader_parse_failure (lib : FloatLib) (f : StructField) (v : Value)
    (s : String) (rest : List String) (hexp : f.IsExported = true)
    (hcustom : f.Typ.Custom = none) :
    (f.Typ.Kind = .Bool → ∀ e, (ParseBool s).2 = some e →
        setValueFromHeader lib f v (s :: rest) = (v, .err e)) ∧
    (isIntKind f.Typ.Kind = true → ∀ e, (ParseInt s 64).2 = some e →
        setValueFromHeader lib f v (s :: rest) = (v, .err e)) ∧
    (isUintKind f.Typ.Kind = true → ∀ e, (ParseUint s 64).2 = some e →
        setValueFromHeader lib f v (s :: rest) = (v, .err e)) ∧
    (isFloatKind f.Typ.Kind = true → ∀ e, (ParseFloat lib s).2 = some e →
        setValueFromHeader lib f v (s :: rest) = (v, .err e)) := by
  refine ⟨?_, ?_, ?_, ?_⟩
  · intro hk e he
    rcases hres : ParseBool s with ⟨b, oe⟩
    rw [hres] at he
    simp only at he
    subst he
    simp [setValueFromHeader, hexp, hcustom, hk, hres]
  · intro hk e he
    rcases hres : ParseInt s 64 with ⟨b, oe⟩
    rw [hres] at he
    simp only at he
    subst he
    cases hkind : f.Typ.Kind <;> simp [hkind, isIntKind, Kind.intBits] at hk <;>
      simp [setValueFromHeader, hexp, hcustom, hkind, hres]
  · intro hk e he
    rcases hres : ParseUint s 64 with ⟨b, oe⟩
    rw [hres] at he
    simp only at he
    subst he
    cases hkind : f.Typ.Kind <;> simp [hkind, isUintKind, Kind.uintBits] at hk <;>
      simp [setValueFromHeader, hexp, hcustom, hkind, hres]
  · intro hk e he
    rcases hres : ParseFloat lib s with ⟨b, oe⟩
    rw [hres] at he
    simp only at he
    subst he
    cases hkind : f.Typ.Kind <;> simp [hkind, isFloatKind] at hk <;>
      simp [setValueFromHeader, hexp, hcustom, hkind, hres]

/-- `ParseFloat` on a string that is not a floating-point literal read to its end: the
syntax error for the whole string, whatever the numeric conversion is. -/
theorem ParseFloat_invalid (lib : FloatLib) (s : String) (h : validFloatLiteral s = false) :
    ParseFloat lib s = (0, some (.NumError "ParseFloat" s .ErrSyntax)) := by
  unfold validFloatLiteral at h
  unfold ParseFloat
  cases hsp : special s.data with
  | some fn =>
    obtain ⟨f, n⟩ := fn
    rw [hsp] at h
    simp only [decide_eq_false_iff_not] at h
    simp only
    rw [if_pos h]
    rfl
  | none =>
    rw [hsp] at h
    simp only [decide_eq_false_iff_not] at h
    simp only
    cases hrf : readFloat s.data with
    | none => rfl
    | some rest =>
      have hrest : rest ≠ [] := by
        intro hnil
        rw [hnil] at hrf
        exact h hrf
      simp only
      rw [if_pos hrest]
      rfl

/-- The floating-point literals of `strconv`, on examples: decimal and hexadecimal forms,
infinities and NaN are read to their end; `bad`, the empty string, a string with a space, a
trailing letter, a doubled underscore, or a hexadecimal mantissa without exponent are
not. -/
theorem validFloatLiteral_examples :
    ["1.5", "-.5e+10", "1_000.25", "0x1.8p-2", "+Inf", "infinity", "NaN"].all validFloatLiteral
      = true ∧
    ["bad", "", " 1", "1.5x", "1__0", "0x1.8", "1e", "+nan", "."].all
      (fun s => !validFloatLiteral s) = true := by
  decide

/-- C5, as amended.  Parse-failure identity: an exported field of a predeclared boolean,
signed or unsigned integer or floating-point type whose first value `s` is not a lexically
valid literal of its kind.  When the fields before it bind without error,
`UnmarshalHeaders` returns a `strconv.NumError` whose `Func` names the parser of the kind
(`ParseBool`, `ParseInt`, `ParseUint`, `ParseFloat`) and whose `Num` is `s`; its `Err` is
the syntax error for a boolean and for a floating-point field, and for an integer it is the
syntax error unless the decimal digits before the first offending byte already reach
`2^64`, when it is the range error (`invalidIntegerErr`).  In every case the field and all
fields after it keep their values. -/
theorem parse_failure_identity (lib : FloatLib) (pre post : Record) (f : StructField)
    (v : Value) (h : Header) (key s : String) (rest : List String)
    (htag : f.Tag = some key) (hkey : key ≠ "-") (hexp : f.IsExported = true)
    (hcustom : f.Typ.Custom = none)
    (hvals : h.Values key = s :: rest) (hpre : (UnmarshalHeaders lib pre h).2 = .ok) :
    (f.Typ.Kind = .Bool → validBoolLiteral s = false →
        UnmarshalHeaders lib (pre ++ (f, v) :: post) h
          = ((UnmarshalHeaders lib pre h).1 ++ (f, v) :: post,
              .err (.NumError "ParseBool" s .ErrSyntax))) ∧
    (isIntKind f.Typ.Kind = true → validIntLiteral s = false →
        UnmarshalHeaders lib (pre ++ (f, v) :: post) h
          = ((UnmarshalHeaders lib pre h).1 ++ (f, v) :: post,
              .err (.NumError "ParseInt" s (invalidIntegerErr (unsignedPart s))))) ∧
    (isUintKind f.Typ.Kind = true → validUintLiteral s = false →
        UnmarshalHeaders lib (pre ++ (f, v) :: post) h
          = ((UnmarshalHeaders lib pre h).1 ++ (f, v) :: post,
              .err (.NumError "ParseUint" s (invalidIntegerErr s.data)))) ∧
    (isFloatKind f.Typ.Kind = true → validFloatLiteral s = false →
        UnmarshalHeaders lib (pre ++ (f, v) :: post) h
          = ((UnmarshalHeaders lib pre h).1 ++ (f, v) :: post,
              .err (.NumError "ParseFloat" s .ErrSyntax))) := by
  have hne := Header.ne_nil_of_values h key s rest hvals
  have hbound := fieldStep_bound lib h f v key s rest htag hkey hvals
  obtain ⟨hbool, hint, huint, hfloat⟩ :=
    setValueFromHeader_parse_failure lib f v s rest hexp hcustom
  have hat : ∀ e, setValueFromHeader lib f v (s :: rest) = (v, .err e) →
      UnmarshalHeaders lib (pre ++ (f, v) :: post) h
        = ((UnmarshalHeaders lib pre h).1 ++ (f, v) :: post, .err e) := by
    intro e he
    rw [UnmarshalHeaders_at lib pre post f v v (.err e) h hne hpre (hbound.trans he)]
    simp
  refine ⟨?_, ?_, ?_, ?_⟩
  · intro hk hs
    exact hat _ (hbool hk _ (by rw [ParseBool_invalid s hs]))
  · intro hk hs
    exact hat _ (hint hk _ (ParseInt_invalid s hs))
  · intro hk hs
    exact hat _ (huint hk _ (ParseUint_invalid_err s hs))
  · intro hk hs
    exact hat _ (hfloat hk _ (by rw [ParseFloat_invalid lib s hs]))

/-- The cases `int-errors` and `float-errors` of the test file (the value `bad` under
`X-Int` and under `X-Float32`), and the digits before the first offending byte of `bad` and
of `99999999999999999999x`: the first give the syntax error, the last the range error. -/
theorem parse_failure_identity_witness :
    UnmarshalHeaders testFloatLib
        ((testRecord testStructZero).take 2 ++ (plainField "Int" .Int (some "x-int"), .int 0) ::
          (testRecord testStructZero).drop 3)
        [("X-Int", ["bad"])]
      = ((UnmarshalHeaders testFloatLib ((testRecord testStructZero).take 2)
            [("X-Int", ["bad"])]).1 ++
          (plainField "Int" .Int (some "x-int"), .int 0) :: (testRecord testStructZero).drop 3,
          .err (.NumError "ParseInt" "bad" (invalidIntegerErr (unsignedPart "bad")))) ∧
    UnmarshalHeaders testFloatLib
        ((testRecord testStructZero).take 12 ++
          (plainField "Float32" .Float32 (some "x-float32"), .float 0) ::
            (testRecord testStructZero).drop 13)
        [("X-Float32", ["bad"])]
      = ((UnmarshalHeaders testFloatLib ((testRecord testStructZero).take 12)
            [("X-Float32", ["bad"])]).1 ++
          (plainField "Float32" .Float32 (some "x-float32"), .float 0) ::
            (testRecord testStructZero).drop 13,
          .err (.NumError "ParseFloat" "bad" .ErrSyntax)) ∧
    invalidIntegerErr (unsignedPart "bad") = .ErrSyntax ∧
    invalidIntegerErr (unsignedPart "99999999999999999999x") = .ErrRange :=
  ⟨(parse_failure_identity testFloatLib ((testRecord testStructZero).take 2)
      ((testRecord testStructZero).drop 3) (plainField "Int" .Int (some "x-int")) (.int 0)
      [("X-Int", ["bad"])] "x-int" "bad" [] rfl (by decide) rfl rfl (by decide)
      (by decide)).2.1 (by decide) (by decide),
    (parse_failure_identity testFloatLib ((testRecord testStructZero).take 12)
      ((testRecord testStructZero).drop 13) (plainField "Float32" .Float32 (some "x-float32"))
      (.float 0) [("X-Float32", ["bad"])] "x-float32" "bad" [] rfl (by decide) rfl rfl
      (by decide) (by decide)).2.2.2 (by decide) (by decide),
    by decide, by decide⟩

/-- C5 as it is stated fails at two inputs.  `99999999999999999999x` is not a valid
integer literal, and a field of type `int` bound from it gives a `NumError` whose `Err` is
the range error, not the syntax error: `ParseUint` meets the overflow before it meets the
`x`.  And for the unexported field `secret int` with the value `bad` the call returns no
error at all: it panics in `value.Addr().Interface()`. -/
theorem parse_failure_not_always_syntax :
    validIntLiteral "99999999999999999999x" = false ∧
    (UnmarshalHeaders testFloatLib [(plainField "Int" .Int (some "x-int"), .int 0)]
        [("X-Int", ["99999999999999999999x"])]).2
      = .err (.NumError "ParseInt" "99999999999999999999x" .ErrRange) ∧
    (UnmarshalHeaders testFloatLib [(plainField "Int" .Int (some "x-int"), .int 0)]
        [("X-Int", ["99999999999999999999x"])]).2
      ≠ .err (.NumError "ParseInt" "99999999999999999999x" .ErrSyntax) ∧
    validIntLiteral "bad" = false ∧
    (UnmarshalHeaders testFloatLib
        [((plainField "Secret" .Int (some "x-secret")).unexported "secret", .int 0)]
        [("X-Secret", ["bad"])]).2
      = .panic "reflect.Value.Interface: cannot return value obtained from unexported field or method" := by
  decide

theorem setValueFromHeader_unsupported (lib : FloatLib) (f : StructField) (v : Value)
    (vs : List String) (hexp : f.IsExported = true) (hcustom : f.Typ.Custom = none)
    (hkind : unsupportedKind f.Typ.Kind = true) :
    setValueFromHeader lib f v vs = (v, .err .ErrUnknownType) := by
  unfold setValueFromHeader
  rw [if_neg (by simp [hexp]), hcustom]
  cases hk : f.Typ.Kind <;> simp [hk, unsupportedKind] at hkind ⊢

/-- The default branch: an exported field whose type is of a kind `setValueFromHeader` has
no case for (an array, a struct, a map, ...) and has no `UnmarshalHeader` method, with a
non-empty value list under its key.  When the fields before it bind without error,
`UnmarshalHeaders` returns `ErrUnknownType`, and the field, like every field after it,
keeps its value. -/
theorem default_branch_error (lib : FloatLib) (pre post : Record) (f : StructField)
    (v : Value) (h : Header) (key : String) (vs : List String)
    (htag : f.Tag = some key) (hkey : key ≠ "-") (hexp : f.IsExported = true)
    (hcustom : f.Typ.Custom = none) (hkind : unsupportedKind f.Typ.Kind = true)
    (hvals : h.Values key = vs) (hne : vs ≠ [])
    (hpre : (UnmarshalHeaders lib pre h).2 = .ok) :
    (UnmarshalHeaders lib (pre ++ (f, v) :: post) h).2 = .err .ErrUnknownType ∧
      (UnmarshalHeaders lib (pre ++ (f, v) :: post) h).1
        = (UnmarshalHeaders lib pre h).1 ++ (f, v) :: post := by
  obtain ⟨s, rest, rfl⟩ : ∃ s rest, vs = s :: rest := by
    cases vs with
    | nil => exact absurd rfl hne
    | cons s rest => exact ⟨s, rest, rfl⟩
  have hmap := Header.ne_nil_of_values h key s rest hvals
  have hstep : fieldStep lib h f v = (v, .err .ErrUnknownType) := by
    rw [fieldStep_bound lib h f v key s rest htag hkey hvals]
    exact setValueFromHeader_unsupported lib f v _ hexp hcustom hkind
  rw [UnmarshalHeaders_at lib pre post f v v _ h hmap hpre hstep]
  simp

/-- The case `TestUnknownType` of the test file: a `[3]byte` field and the header
`X-Unknown-Type: xxx`. -/
theorem default_branch_error_test :
    (UnmarshalHeaders testFloatLib
        ([] ++ (plainField "UnknownType" .Array (some "x-unknown-type"), .ints [0, 0, 0]) :: [])
        [("X-Unknown-Type", ["xxx"])]).2 = .err .ErrUnknownType ∧
      (UnmarshalHeaders testFloatLib
        ([] ++ (plainField "UnknownType" .Array (some "x-unknown-type"), .ints [0, 0, 0]) :: [])
        [("X-Unknown-Type", ["xxx"])]).1
        = (UnmarshalHeaders testFloatLib [] [("X-Unknown-Type", ["xxx"])]).1 ++
            (plainField "UnknownType" .Array (some "x-unknown-type"), .ints [0, 0, 0]) :: [] :=
  default_branch_error testFloatLib [] []
    (plainField "UnknownType" .Array (some "x-unknown-type")) (.ints [0, 0, 0])
    [("X-Unknown-Type", ["xxx"])] "x-unknown-type" ["xxx"] rfl (by decide) rfl rfl rfl
    (by decide) (by decide) (by decide)

/-- C6, at the failing inputs.  A struct with the one field `Vals []float64` tagged
`x-vals` and the header `X-Vals: 1.5`: the type is none of the built-in shapes and has no
hook, yet the call does not return `ErrUnknownType`; it panics in `value.Set` of the slice
case.  And a struct with the one unexported field `raw [3]byte` tagged `x-raw` and the
header `X-Raw: xxx`: the call panics in `value.Addr().Interface()` before it reaches the
default branch.  Both fields are left as they were. -/
theorem unsupported_type_panics :
    (UnmarshalHeaders testFloatLib [(plainField "Vals" .Slice (some "x-vals"), .floats [])]
        [("X-Vals", ["1.5"])]).2
      = .panic "reflect.Set: value of type []string is not assignable" ∧
    (UnmarshalHeaders testFloatLib [(plainField "Vals" .Slice (some "x-vals"), .floats [])]
        [("X-Vals", ["1.5"])]).2 ≠ .err .ErrUnknownType ∧
    (UnmarshalHeaders testFloatLib [(plainField "Vals" .Slice (some "x-vals"), .floats [])]
        [("X-Vals", ["1.5"])]).1.map Prod.snd = [.floats []] ∧
    (UnmarshalHeaders testFloatLib
        [((plainField "Raw" .Array (some "x-raw")).unexported "raw", .ints [0, 0, 0])]
        [("X-Raw", ["xxx"])]).2
      = .panic "reflect.Value.Interface: cannot return value obtained from unexported field or method" ∧
    (UnmarshalHeaders testFloatLib
        [((plainField "Raw" .Array (some "x-raw")).unexported "raw", .ints [0, 0, 0])]
        [("X-Raw", ["xxx"])]).1.map Prod.snd = [.ints [0, 0, 0]] := by
  decide

/-- A slice field whose elements are not strings, without an `UnmarshalHeader` method,
reaches the `reflect.Slice` case: the `[]string` built there is not assignable to it and
`value.Set` panics, for every value list. -/
theorem setValueFromHeader_other_slice (lib : FloatLib) (f : StructField) (v : Value)
    (vs : List String) (hexp : f.IsExported = true) (hcustom : f.Typ.Custom = none)
    (hkind : f.Typ.Kind = .Slice) (helem : f.Typ.ElemString = false) :
    setValueFromHeader lib f v vs
      = (v, .panic "reflect.Set: value of type []string is not assignable") := by
  have hfill := fillSlice_spec vs vs.length 0 (List.replicate vs.length "") (by omega)
    (by simp) (fun j hj => absurd hj (by omega))
  simp [setValueFromHeader, hexp, hcustom, hkind, hfill, helem]

/-- C7, at the failing input: a struct with the one field `Ints []int` tagged `x-ints` and
the header `X-Ints: 1`.  The call does not return `ErrUnknownType`: it panics in
`value.Set`, leaving the field as it was. -/
theorem nonstring_slice_panics :
    UnmarshalHeaders testFloatLib [(plainField "Ints" .Slice (some "x-ints"), .ints [])]
        [("X-Ints", ["1"])]
      = ([(plainField "Ints" .Slice (some "x-ints"), .ints [])],
          .panic "reflect.Set: value of type []string is not assignable") ∧
    (UnmarshalHeaders testFloatLib [(plainField "Ints" .Slice (some "x-ints"), .ints [])]
        [("X-Ints", ["1"])]).2 ≠ .err .ErrUnknownType := by
  refine ⟨?_, by decide⟩
  have hstep := setValueFromHeader_other_slice testFloatLib
    (plainField "Ints" .Slice (some "x-ints")) (.ints []) ["1"] rfl rfl rfl rfl
  have hvals : Header.Values [("X-Ints", ["1"])] "x-ints" = ["1"] := by decide
  simp [UnmarshalHeaders, fieldLoop, fieldStep, plainField, hvals] at hstep ⊢
  simp [hstep]

/-- A field whose own iteration is a `continue` can be taken out of the record: the call
ends the same way, and the field keeps its value however the call ends. -/
theorem skipped_field_frame (lib : FloatLib) (pre post : Record) (f : StructField)
    (v : Value) (h : Header) (hskip : fieldStep lib h f v = (v, .ok)) :
    (UnmarshalHeaders lib (pre ++ (f, v) :: post) h).1[pre.length]? = some (f, v) ∧
      (UnmarshalHeaders lib (pre ++ (f, v) :: post) h).2
        = (UnmarshalHeaders lib (pre ++ post) h).2 ∧
      (UnmarshalHeaders lib (pre ++ (f, v) :: post) h).1
        = (UnmarshalHeaders lib (pre ++ post) h).1.take pre.length ++
            (f, v) :: (UnmarshalHeaders lib (pre ++ post) h).1.drop pre.length := by
  by_cases hnil : h = []
  · subst hnil
    have hempty : ∀ r : Record, UnmarshalHeaders lib r [] = (r, .ok) := fun r => by
      simp [UnmarshalHeaders]
    rw [hempty, hempty]
    exact ⟨get?_after pre pre _ _ rfl, rfl, by simp⟩
  · rw [UnmarshalHeaders_eq_loop lib _ h hnil, UnmarshalHeaders_eq_loop lib _ h hnil]
    have hlen := fieldLoop_length lib h pre
    by_cases hpre : (fieldLoop lib h pre).2 = .ok
    · rw [fieldLoop_append lib h pre _ hpre, fieldLoop_append lib h pre _ hpre,
        fieldLoop_cons_ok lib h f v v post hskip]
      refine ⟨get?_after _ pre _ _ hlen, rfl, ?_⟩
      simp only
      rw [← hlen, List.take_left, List.drop_left]
    · rw [fieldLoop_append_stop lib h pre _ hpre, fieldLoop_append_stop lib h pre _ hpre]
      refine ⟨get?_after _ pre _ _ hlen, rfl, ?_⟩
      simp only
      rw [← hlen, List.take_left, List.drop_left]

/-- C8. A field without a `header` tag, or with the tag `-`, is never bound: for every
record, every header map (also one with an entry keyed by the field's name or by `-`) and
every type of the field, the field holds after the call the value it held before, however
the call ends; and it causes no error: the call ends as it does on the record without the
field, leaving the other fields as it leaves them there. -/
theorem excluded_field_untouched (lib : FloatLib) (pre post : Record) (f : StructField)
    (v : Value) (h : Header) (hexcl : f.Tag = none ∨ f.Tag = some "-") :
    (UnmarshalHeaders lib (pre ++ (f, v) :: post) h).1[pre.length]? = some (f, v) ∧
      (UnmarshalHeaders lib (pre ++ (f, v) :: post) h).2
        = (UnmarshalHeaders lib (pre ++ post) h).2 ∧
      (UnmarshalHeaders lib (pre ++ (f, v) :: post) h).1
        = (UnmarshalHeaders lib (pre ++ post) h).1.take pre.length ++
            (f, v) :: (UnmarshalHeaders lib (pre ++ post) h).1.drop pre.length := by
  apply skipped_field_frame
  rcases hexcl with htag | htag <;> simp [fieldStep, htag]

/-- The field `SkipKey` of `testStruct` (a struct, tag `-`), in a record between the fields
`Int8` and `Bool`, with a map that has entries under `-` and under the field's name. -/
theorem excluded_field_untouched_witness :
    (UnmarshalHeaders testFloatLib
        ([(plainField "Int8" .Int8 (some "x-int8"), .int 0)] ++
          (plainField "SkipKey" .Struct (some "-"), .empty) ::
            [(plainField "Bool" .Bool (some "x-bool"), .bool false)])
        [("-", ["1"]), ("Skipkey", ["2"]), ("X-Bool", ["true"])]).1[
          [(plainField "Int8" .Int8 (some "x-int8"), Value.int 0)].length]?
        = some (plainField "SkipKey" .Struct (some "-"), .empty) ∧
      (UnmarshalHeaders testFloatLib
        ([(plainField "Int8" .Int8 (some "x-int8"), .int 0)] ++
          (plainField "SkipKey" .Struct (some "-"), .empty) ::
            [(plainField "Bool" .Bool (some "x-bool"), .bool false)])
        [("-", ["1"]), ("Skipkey", ["2"]), ("X-Bool", ["true"])]).2
        = (UnmarshalHeaders testFloatLib
            ([(plainField "Int8" .Int8 (some "x-int8"), .int 0)] ++
              [(plainField "Bool" .Bool (some "x-bool"), .bool false)])
            [("-", ["1"]), ("Skipkey", ["2"]), ("X-Bool", ["true"])]).2 ∧
      (UnmarshalHeaders testFloatLib
        ([(plainField "Int8" .Int8 (some "x-int8"), .int 0)] ++
          (plainField "SkipKey" .Struct (some "-"), .empty) ::
            [(plainField "Bool" .Bool (some "x-bool"), .bool false)])
        [("-", ["1"]), ("Skipkey", ["2"]), ("X-Bool", ["true"])]).1
        = (UnmarshalHeaders testFloatLib
            ([(plainField "Int8" .Int8 (some "x-int8"), .int 0)] ++
              [(plainField "Bool" .Bool (some "x-bool"), .bool false)])
            [("-", ["1"]), ("Skipkey", ["2"]), ("X-Bool", ["true"])]).1.take
              [(plainField "Int8" .Int8 (some "x-int8"), Value.int 0)].length ++
            (plainField "SkipKey" .Struct (some "-"), .empty) ::
              (UnmarshalHeaders testFloatLib
                ([(plainField "Int8" .Int8 (some "x-int8"), .int 0)] ++
                  [(plainField "Bool" .Bool (some "x-bool"), .bool false)])
                [("-", ["1"]), ("Skipkey", ["2"]), ("X-Bool", ["true"])]).1.drop
                  [(plainField "Int8" .Int8 (some "x-int8"), Value.int 0)].length :=
  excluded_field_untouched testFloatLib [(plainField "Int8" .Int8 (some "x-int8"), .int 0)]
    [(plainField "Bool" .Bool (some "x-bool"), .bool false)]
    (plainField "SkipKey" .Struct (some "-")) .empty
    [("-", ["1"]), ("Skipkey", ["2"]), ("X-Bool", ["true"])] (Or.inr rfl)

/-- C9. With an empty (or nil) header map `UnmarshalHeaders` returns `nil` and leaves the
record as it is, for every record: no field is looked at, so a field of an unsupported
type, or one whose method would fail, makes no difference. -/
theorem empty_header_noop (lib : FloatLib) (v : Record) :
    UnmarshalHeaders lib v [] = (v, .ok) := by
  simp [UnmarshalHeaders]

/-- C10. A field with a key under which the map holds no values (no entry stored under the
canonical form of the key, or an entry with an empty value list) is skipped, whatever its
type: it keeps its value however the call ends, no error arises from it, and the loop goes
on: the call ends as it does on the record without the field, leaving the other fields as
it leaves them there. -/
theorem absent_key_skipped (lib : FloatLib) (pre post : Record) (f : StructField)
    (v : Value) (h : Header) (key : String) (htag : f.Tag = some key)
    (habsent : h.find? (CanonicalMIMEHeaderKey key) = none ∨
      h.find? (CanonicalMIMEHeaderKey key) = some []) :
    (UnmarshalHeaders lib (pre ++ (f, v) :: post) h).1[pre.length]? = some (f, v) ∧
      (UnmarshalHeaders lib (pre ++ (f, v) :: post) h).2
        = (UnmarshalHeaders lib (pre ++ post) h).2 ∧
      (UnmarshalHeaders lib (pre ++ (f, v) :: post) h).1
        = (UnmarshalHeaders lib (pre ++ post) h).1.take pre.length ++
            (f, v) :: (UnmarshalHeaders lib (pre ++ post) h).1.drop pre.length := by
  apply skipped_field_frame
  have hvals : h.Values key = [] := by
    rcases habsent with hfind | hfind <;> simp [Header.Values, Header.index, hfind]
  simp [fieldStep, htag, hvals]

/-- The `[3]byte` field of `TestUnknownType`, whose key is absent from a map that is not
empty, between two fields that are bound. -/
theorem absent_key_skipped_witness :
    (UnmarshalHeaders testFloatLib
        ([(plainField "Int8" .Int8 (some "x-int8"), .int 0)] ++
          (plainField "UnknownType" .Array (some "x-unknown-type"), .ints [0, 0, 0]) ::
            [(plainField "Bool" .Bool (some "x-bool"), .bool false)])
        [("X-Int8", ["5"]), ("X-Bool", ["true"])]).1[
          [(plainField "Int8" .Int8 (some "x-int8"), Value.int 0)].length]?
        = some (plainField "UnknownType" .Array (some "x-unknown-type"), .ints [0, 0, 0]) ∧
      (UnmarshalHeaders testFloatLib
        ([(plainField "Int8" .Int8 (some "x-int8"), .int 0)] ++
          (plainField "UnknownType" .Array (some "x-unknown-type"), .ints [0, 0, 0]) ::
            [(plainField "Bool" .Bool (some "x-bool"), .bool false)])
        [("X-Int8", ["5"]), ("X-Bool", ["true"])]).2
        = (UnmarshalHeaders testFloatLib
            ([(plainField "Int8" .Int8 (some "x-int8"), .int 0)] ++
              [(plainField "Bool" .Bool (some "x-bool"), .bool false)])
            [("X-Int8", ["5"]), ("X-Bool", ["true"])]).2 ∧
      (UnmarshalHeaders testFloatLib
        ([(plainField "Int8" .Int8 (some "x-int8"), .int 0)] ++
          (plainField "UnknownType" .Array (some "x-unknown-type"), .ints [0, 0, 0]) ::
            [(plainField "Bool" .Bool (some "x-bool"), .bool false)])
        [("X-Int8", ["5"]), ("X-Bool", ["true"])]).1
        = (UnmarshalHeaders testFloatLib
            ([(plainField "Int8" .Int8 (some "x-int8"), .int 0)] ++
              [(plainField "Bool" .Bool (some "x-bool"), .bool false)])
            [("X-Int8", ["5"]), ("X-Bool", ["true"])]).1.take
              [(plainField "Int8" .Int8 (some "x-int8"), Value.int 0)].length ++
            (plainField "UnknownType" .Array (some "x-unknown-type"), .ints [0, 0, 0]) ::
              (UnmarshalHeaders testFloatLib
                ([(plainField "Int8" .Int8 (some "x-int8"), .int 0)] ++
                  [(plainField "Bool" .Bool (some "x-bool"), .bool false)])
                [("X-Int8", ["5"]), ("X-Bool", ["true"])]).1.drop
                  [(plainField "Int8" .Int8 (some "x-int8"), Value.int 0)].length :=
  absent_key_skipped testFloatLib [(plainField "Int8" .Int8 (some "x-int8"), .int 0)]
    [(plainField "Bool" .Bool (some "x-bool"), .bool false)]
    (plainField "UnknownType" .Array (some "x-unknown-type")) (.ints [0, 0, 0])
    [("X-Int8", ["5"]), ("X-Bool", ["true"])] "x-unknown-type" rfl (Or.inl (by decide))

/-! ## Boolean and unsigned fields -/

/-- `ParseBool` on the twelve literals it accepts, and on every other string. -/
theorem ParseBool_cases (s : String) :
    (s ∈ ["1", "t", "T", "TRUE", "true", "True"] → ParseBool s = (true, none)) ∧
    (s ∈ ["0", "f", "F", "FALSE", "false", "False"] → ParseBool s = (false, none)) ∧
    (s ∉ ["1", "t", "T", "TRUE", "true", "True"] →
      s ∉ ["0", "f", "F", "FALSE", "false", "False"] →
      ParseBool s = (false, some (.NumError "ParseBool" s .ErrSyntax))) := by
  refine ⟨?_, ?_, ?_⟩
  · intro h
    simp only [List.mem_cons, List.mem_singleton, List.mem_nil_iff, or_false] at h
    rcases h with h | h | h | h | h | h <;> subst h <;> decide
  · intro h
    simp only [List.mem_cons, List.mem_singleton, List.mem_nil_iff, or_false] at h
    rcases h with h | h | h | h | h | h <;> subst h <;> decide
  · intro ht hf
    apply ParseBool_invalid
    simp only [List.mem_cons, List.mem_singleton, List.mem_nil_iff, or_false, not_or] at ht hf
    simp only [validBoolLiteral, decide_eq_false_iff_not, List.mem_cons, List.mem_singleton,
      List.mem_nil_iff, or_false, not_or]
    tauto

theorem setValueFromHeader_bool (lib : FloatLib) (f : StructField) (v : Value) (s : String)
    (rest : List String) (hexp : f.IsExported = true) (hcustom : f.Typ.Custom = none)
    (hkind : f.Typ.Kind = .Bool) :
    setValueFromHeader lib f v (s :: rest)
      = match ParseBool s with
        | (_, some e) => (v, .err e)
        | (val, none) => (.bool val, .ok) := by
  simp [setValueFromHeader, hexp, hcustom, hkind]

/-- C11, as amended.  An exported field of type `bool` (no `UnmarshalHeader` method) whose
key holds the first value `s`: its iteration succeeds and sets it to `true` exactly when `s` is one of `1`,
`t`, `T`, `TRUE`, `true`, `True`; it succeeds and sets it to `false` exactly when `s` is
one of `0`, `f`, `F`, `FALSE`, `false`, `False`; for every other `s` it fails with the
`ParseBool` syntax error and the field is unchanged.  When the fields before it bind
without error, the call leaves the field so and, on a failure, returns that error. -/
theorem bool_literals (lib : FloatLib) (pre post : Record) (f : StructField) (v : Value)
    (h : Header) (key s : String) (rest : List String)
    (htag : f.Tag = some key) (hkey : key ≠ "-") (hexp : f.IsExported = true)
    (hcustom : f.Typ.Custom = none)
    (hkind : f.Typ.Kind = .Bool) (hvals : h.Values key = s :: rest)
    (hpre : (UnmarshalHeaders lib pre h).2 = .ok) :
    (fieldStep lib h f v = (.bool true, .ok) ↔ s ∈ ["1", "t", "T", "TRUE", "true", "True"]) ∧
    (fieldStep lib h f v = (.bool false, .ok) ↔
      s ∈ ["0", "f", "F", "FALSE", "false", "False"]) ∧
    (s ∈ ["1", "t", "T", "TRUE", "true", "True"] →
      (UnmarshalHeaders lib (pre ++ (f, v) :: post) h).1[pre.length]? = some (f, .bool true) ∧
      (UnmarshalHeaders lib (pre ++ (f, v) :: post) h).2 = (UnmarshalHeaders lib post h).2) ∧
    (s ∈ ["0", "f", "F", "FALSE", "false", "False"] →
      (UnmarshalHeaders lib (pre ++ (f, v) :: post) h).1[pre.length]? = some (f, .bool false) ∧
      (UnmarshalHeaders lib (pre ++ (f, v) :: post) h).2 = (UnmarshalHeaders lib post h).2) ∧
    (s ∉ ["1", "t", "T", "TRUE", "true", "True"] →
      s ∉ ["0", "f", "F", "FALSE", "false", "False"] →
      UnmarshalHeaders lib (pre ++ (f, v) :: post) h
        = ((UnmarshalHeaders lib pre h).1 ++ (f, v) :: post,
            .err (.NumError "ParseBool" s .ErrSyntax))) := by
  have hne := Header.ne_nil_of_values h key s rest hvals
  have hstep : fieldStep lib h f v = match ParseBool s with
      | (_, some e) => (v, .err e)
      | (val, none) => (.bool val, .ok) := by
    rw [fieldStep_bound lib h f v key s rest htag hkey hvals]
    exact setValueFromHeader_bool lib f v s rest hexp hcustom hkind
  obtain ⟨htrue, hfalse, hbad⟩ := ParseBool_cases s
  have hlen := UnmarshalHeaders_length lib pre h
  by_cases ht : s ∈ ["1", "t", "T", "TRUE", "true", "True"]
  · have hstep1 : fieldStep lib h f v = (.bool true, .ok) := by rw [hstep, htrue ht]
    have hnf : s ∉ ["0", "f", "F", "FALSE", "false", "False"] := by
      intro hf
      have := (htrue ht).symm.trans (hfalse hf)
      simp at this
    refine ⟨⟨fun _ => ht, fun _ => hstep1⟩, ⟨fun hx => ?_, fun hf => absurd hf hnf⟩, ?_, ?_, ?_⟩
    · rw [hstep1] at hx
      simp at hx
    · intro _
      rw [UnmarshalHeaders_at lib pre post f v _ .ok h hne hpre hstep1, if_pos rfl]
      exact ⟨get?_after _ pre _ _ hlen, rfl⟩
    · intro hf
      exact absurd hf hnf
    · intro hnt
      exact absurd ht hnt
  · by_cases hf : s ∈ ["0", "f", "F", "FALSE", "false", "False"]
    · have hstep1 : fieldStep lib h f v = (.bool false, .ok) := by rw [hstep, hfalse hf]
      refine ⟨⟨fun hx => ?_, fun hx => absurd hx ht⟩, ⟨fun _ => hf, fun _ => hstep1⟩,
        fun hx => absurd hx ht, ?_, fun _ hnf => absurd hf hnf⟩
      · rw [hstep1] at hx
        simp at hx
      · intro _
        rw [UnmarshalHeaders_at lib pre post f v _ .ok h hne hpre hstep1, if_pos rfl]
        exact ⟨get?_after _ pre _ _ hlen, rfl⟩
    · have hstep1 : fieldStep lib h f v = (v, .err (.NumError "ParseBool" s .ErrSyntax)) := by
        rw [hstep, hbad ht hf]
      refine ⟨⟨fun hx => ?_, fun hx => absurd hx ht⟩, ⟨fun hx => ?_, fun hx => absurd hx hf⟩,
        fun hx => absurd hx ht, fun hx => absurd hx hf, fun _ _ => ?_⟩
      · rw [hstep1] at hx
        simp at hx
      · rw [hstep1] at hx
        simp at hx
      · rw [UnmarshalHeaders_at lib pre post f v _ _ h hne hpre hstep1]
        simp

/-- The field `Bool` of `testStruct` under the headers of the test file (`X-Bool: true`):
the field ends as `true`. -/
theorem bool_literals_witness :
    (UnmarshalHeaders testFloatLib
        ((testRecord testStructZero).take 14 ++
          (plainField "Bool" .Bool (some "x-bool"), .bool false) ::
            (testRecord testStructZero).drop 15)
        setTestHeaders).1[((testRecord testStructZero).take 14).length]?
      = some (plainField "Bool" .Bool (some "x-bool"), .bool true) ∧
    (UnmarshalHeaders testFloatLib
        ((testRecord testStructZero).take 14 ++
          (plainField "Bool" .Bool (some "x-bool"), .bool false) ::
            (testRecord testStructZero).drop 15) setTestHeaders).2
      = (UnmarshalHeaders testFloatLib ((testRecord testStructZero).drop 15) setTestHeaders).2 :=
  (bool_literals testFloatLib ((testRecord testStructZero).take 14)
    ((testRecord testStructZero).drop 15) (plainField "Bool" .Bool (some "x-bool"))
    (.bool false) setTestHeaders "x-bool" "true" [] rfl (by decide) rfl rfl rfl (by decide)
    (by decide)).2.2.1 (by decide)

/-- C11 as it is stated fails for an unexported field: the field `flag bool` tagged
`x-flag`, with the header `X-Flag: true`.  The iteration of the field does not succeed and
the field is not set to `true`: the call panics in `value.Addr().Interface()` and the field
still holds `false`. -/
theorem bool_unexported_panics :
    fieldStep testFloatLib [("X-Flag", ["true"])]
        ((plainField "Flag" .Bool (some "x-flag")).unexported "flag") (.bool false)
      ≠ (.bool true, .ok) ∧
    (UnmarshalHeaders testFloatLib
        [((plainField "Flag" .Bool (some "x-flag")).unexported "flag", .bool false)]
        [("X-Flag", ["true"])]).2
      = .panic "reflect.Value.Interface: cannot return value obtained from unexported field or method" ∧
    (UnmarshalHeaders testFloatLib
        [((plainField "Flag" .Bool (some "x-flag")).unexported "flag", .bool false)]
        [("X-Flag", ["true"])]).1.values = [.bool false] := by
  decide

/-- A string that starts with `-` is no unsigned literal, and no digit comes before the
`-`: `ParseUint` gives the syntax error at the first byte. -/
theorem ParseUint_minus (s : String) (hneg : s.data.head? = some '-') :
    (ParseUint s 64).2 = some (.NumError "ParseUint" s .ErrSyntax) := by
  obtain ⟨data⟩ := s
  cases data with
  | nil => simp at hneg
  | cons c cs =>
    simp only [List.head?_cons, Option.some.injEq] at hneg
    subst hneg
    have hinvalid : validUintLiteral ⟨'-' :: cs⟩ = false := by
      simp [validUintLiteral, isDecimal, isDecimalDigit]
    have herr : invalidIntegerErr ('-' :: cs) = .ErrSyntax := by
      simp [invalidIntegerErr, leadingValue, isDecimalDigit, decimalFrom]
    rw [ParseUint_invalid_err _ hinvalid, herr]

/-- Negative input of an exported unsigned field: a field of an unsigned integer type of
any width (kinds `Uint` to `Uint64`) whose first value starts with `-` (such as `-0` and
`-1`).  When the fields before it bind without error, `UnmarshalHeaders` returns the
`ParseUint` syntax error for that value, and the field and the fields after it keep their
values: no negative input is wrapped into an unsigned value. -/
theorem unsigned_negative_rejected (lib : FloatLib) (pre post : Record) (f : StructField)
    (v : Value) (h : Header) (key s : String) (rest : List String)
    (htag : f.Tag = some key) (hkey : key ≠ "-") (hexp : f.IsExported = true)
    (hcustom : f.Typ.Custom = none)
    (hkind : isUintKind f.Typ.Kind = true) (hvals : h.Values key = s :: rest)
    (hneg : s.data.head? = some '-') (hpre : (UnmarshalHeaders lib pre h).2 = .ok) :
    UnmarshalHeaders lib (pre ++ (f, v) :: post) h
      = ((UnmarshalHeaders lib pre h).1 ++ (f, v) :: post,
          .err (.NumError "ParseUint" s .ErrSyntax)) := by
  have hne := Header.ne_nil_of_values h key s rest hvals
  have hstep : fieldStep lib h f v = (v, .err (.NumError "ParseUint" s .ErrSyntax)) := by
    rw [fieldStep_bound lib h f v key s rest htag hkey hvals]
    exact (setValueFromHeader_parse_failure lib f v s rest hexp hcustom).2.2.1 hkind _
      (ParseUint_minus s hneg)
  rw [UnmarshalHeaders_at lib pre post f v v _ h hne hpre hstep]
  simp

/-- The field `Uint8` of `testStruct`, holding 7, with the header `X-Uint8: -1`: the call
returns the syntax error and the field still holds 7. -/
theorem unsigned_negative_rejected_test :
    UnmarshalHeaders testFloatLib
        ((testRecord testStructZero).take 8 ++
          (plainField "Uint8" .Uint8 (some "x-uint8"), .uint 7) ::
            (testRecord testStructZero).drop 9)
        [("X-Uint8", ["-1"])]
      = ((UnmarshalHeaders testFloatLib ((testRecord testStructZero).take 8)
            [("X-Uint8", ["-1"])]).1 ++
          (plainField "Uint8" .Uint8 (some "x-uint8"), .uint 7) ::
            (testRecord testStructZero).drop 9,
          .err (.NumError "ParseUint" "-1" .ErrSyntax)) :=
  unsigned_negative_rejected testFloatLib ((testRecord testStructZero).take 8)
    ((testRecord testStructZero).drop 9) (plainField "Uint8" .Uint8 (some "x-uint8")) (.uint 7)
    [("X-Uint8", ["-1"])] "x-uint8" "-1" [] rfl (by decide) rfl rfl rfl (by decide)
    (by decide) (by decide)

/-- C12, at the failing input: a struct with the one unexported field `count uint8` tagged
`x-count`, holding 7, and the header `X-Count: -1`.  The call returns no parse error: it
panics in `value.Addr().Interface()` before `ParseUint` is reached.  The field still holds
7, so nothing is wrapped. -/
theorem unsigned_negative_unexported_panics :
    UnmarshalHeaders testFloatLib
        [((plainField "Count" .Uint8 (some "x-count")).unexported "count", .uint 7)]
        [("X-Count", ["-1"])]
      = ([((plainField "Count" .Uint8 (some "x-count")).unexported "count", .uint 7)],
          .panic "reflect.Value.Interface: cannot return value obtained from unexported field or method") ∧
    (UnmarshalHeaders testFloatLib
        [((plainField "Count" .Uint8 (some "x-count")).unexported "count", .uint 7)]
        [("X-Count", ["-1"])]).2 ≠ .err (.NumError "ParseUint" "-1" .ErrSyntax) ∧
    (UnmarshalHeaders testFloatLib
        [(plainField "Count" .Uint8 (some "x-count"), .uint 7)]
        [("X-Count", ["-1"])]).2 = .err (.NumError "ParseUint" "-1" .ErrSyntax) := by
  refine ⟨?_, by decide, by decide⟩
  have hvals : Header.Values [("X-Count", ["-1"])] "x-count" = ["-1"] := by decide
  simp [UnmarshalHeaders, fieldLoop, fieldStep, plainField, StructField.unexported, hvals,
    setValueFromHeader, StructField.IsExported]

/-! ## Two runs side by side -/

/-- Two header maps under which every field of a record has the same iteration give the
same run of the loop. -/
theorem fieldLoop_congr (lib : FloatLib) (h1 h2 : Header) (v : Record)
    (hsame : ∀ slot ∈ v, fieldStep lib h1 slot.1 slot.2 = fieldStep lib h2 slot.1 slot.2) :
    fieldLoop lib h1 v = fieldLoop lib h2 v := by
  induction v with
  | nil => simp [fieldLoop]
  | cons slot rest ih =>
    obtain ⟨f, x⟩ := slot
    have hhead := hsame (f, x) (by simp)
    have htail := ih (fun slot hmem => hsame slot (by simp [hmem]))
    simp only [fieldLoop, hhead, htail]

/-- Two records with the same values, field by field, whose fields have the same
iterations, give the same result and the same values. -/
theorem fieldLoop_congr_fields (lib : FloatLib) (h1 h2 : Header) :
    ∀ (v1 v2 : Record),
      List.Forall₂ (fun a b => a.2 = b.2 ∧ ∀ x, fieldStep lib h1 a.1 x = fieldStep lib h2 b.1 x)
        v1 v2 →
      (fieldLoop lib h1 v1).2 = (fieldLoop lib h2 v2).2 ∧
        (fieldLoop lib h1 v1).1.map Prod.snd = (fieldLoop lib h2 v2).1.map Prod.snd := by
  intro v1 v2 hrel
  induction hrel with
  | nil => simp [fieldLoop]
  | @cons a b l1 l2 hab htail ih =>
    obtain ⟨f1, x1⟩ := a
    obtain ⟨f2, x2⟩ := b
    obtain ⟨hval, hstep⟩ := hab
    have hx : x1 = x2 := hval
    subst hx
    have hs : fieldStep lib h1 f1 x1 = fieldStep lib h2 f2 x1 := hstep x1
    have hrest : l1.map Prod.snd = l2.map Prod.snd := by
      clear ih
      induction htail with
      | nil => rfl
      | cons hxy _ ih2 => simp [hxy.1, ih2]
    rcases hres : fieldStep lib h2 f2 x1 with ⟨y, r⟩
    rw [hres] at hs
    cases r with
    | ok =>
      rw [fieldLoop_cons_ok lib h1 f1 x1 y l1 hs, fieldLoop_cons_ok lib h2 f2 x1 y l2 hres]
      simp [ih.1, ih.2]
    | err e =>
      rw [fieldLoop_cons_stop lib h1 f1 x1 y _ l1 hs (by simp),
        fieldLoop_cons_stop lib h2 f2 x1 y _ l2 hres (by simp)]
      simp [hrest]
    | panic m =>
      rw [fieldLoop_cons_stop lib h1 f1 x1 y _ l1 hs (by simp),
        fieldLoop_cons_stop lib h2 f2 x1 y _ l2 hres (by simp)]
      simp [hrest]

/-- The scalar cases of the switch read `values[0]` and nothing else. -/
theorem setValueFromHeader_scalar_first (lib : FloatLib) (f : StructField) (v : Value)
    (s : String) (r1 r2 : List String) (hcustom : f.Typ.Custom = none)
    (hkind : isScalarKind f.Typ.Kind = true) :
    setValueFromHeader lib f v (s :: r1) = setValueFromHeader lib f v (s :: r2) := by
  unfold setValueFromHeader
  rw [hcustom]
  split
  · rfl
  cases hk : f.Typ.Kind <;>
    simp [hk, isScalarKind, isFloatKind, isIntKind, isUintKind, Kind.intBits, Kind.uintBits]
      at hkind ⊢

/-- C13. Only the first value counts for a scalar field: a field of a boolean, signed or
unsigned integer, floating-point or string kind without an `UnmarshalHeader` method, and
two header maps that hold, under its key, two non-empty value lists with the same first
element.  The conversion gives the same result (the same error or success, the same value
in the field) on both lists, and the same as on the first value alone; and when the two
maps treat every other field alike, the two calls return the same result and leave the
same record. -/
theorem first_value_only (lib : FloatLib) (pre post : Record) (f : StructField) (v : Value)
    (h1 h2 : Header) (key s : String) (r1 r2 : List String)
    (htag : f.Tag = some key) (hkey : key ≠ "-") (hcustom : f.Typ.Custom = none)
    (hkind : isScalarKind f.Typ.Kind = true)
    (hv1 : h1.Values key = s :: r1) (hv2 : h2.Values key = s :: r2)
    (hothers : ∀ slot ∈ pre ++ post,
      fieldStep lib h1 slot.1 slot.2 = fieldStep lib h2 slot.1 slot.2) :
    setValueFromHeader lib f v (s :: r1) = setValueFromHeader lib f v (s :: r2) ∧
      setValueFromHeader lib f v (s :: r1) = setValueFromHeader lib f v [s] ∧
      UnmarshalHeaders lib (pre ++ (f, v) :: post) h1
        = UnmarshalHeaders lib (pre ++ (f, v) :: post) h2 := by
  have hsame := setValueFromHeader_scalar_first lib f v s r1 r2 hcustom hkind
  refine ⟨hsame, setValueFromHeader_scalar_first lib f v s r1 [] hcustom hkind, ?_⟩
  rw [UnmarshalHeaders_eq_loop lib _ h1 (Header.ne_nil_of_values h1 key s r1 hv1),
    UnmarshalHeaders_eq_loop lib _ h2 (Header.ne_nil_of_values h2 key s r2 hv2)]
  apply fieldLoop_congr
  intro slot hmem
  simp only [List.mem_append, List.mem_cons] at hmem
  rcases hmem with hmem | hmem | hmem
  · exact hothers slot (by simp [hmem])
  · subst hmem
    simp only
    rw [fieldStep_bound lib h1 f v key s r1 htag hkey hv1,
      fieldStep_bound lib h2 f v key s r2 htag hkey hv2, hsame]
  · exact hothers slot (by simp [hmem])

/-- The field `Int8` of `testStruct` between `String` and `Bool`, with `X-Int8: 5, bad` in
one map and `X-Int8: 5, 6, 7` in the other: the same conversion and the same call. -/
theorem first_value_only_witness :
    setValueFromHeader testFloatLib (plainField "Int8" .Int8 (some "x-int8")) (.int 0)
        ("5" :: ["bad"])
      = setValueFromHeader testFloatLib (plainField "Int8" .Int8 (some "x-int8")) (.int 0)
          ("5" :: ["6", "7"]) ∧
    setValueFromHeader testFloatLib (plainField "Int8" .Int8 (some "x-int8")) (.int 0)
        ("5" :: ["bad"])
      = setValueFromHeader testFloatLib (plainField "Int8" .Int8 (some "x-int8")) (.int 0)
          ["5"] ∧
    UnmarshalHeaders testFloatLib
        ([(plainField "String" .String (some "x-string"), .string "")] ++
          (plainField "Int8" .Int8 (some "x-int8"), .int 0) ::
            [(plainField "Bool" .Bool (some "x-bool"), .bool false)])
        [("X-Int8", ["5", "bad"]), ("X-Bool", ["true"])]
      = UnmarshalHeaders testFloatLib
        ([(plainField "String" .String (some "x-string"), .string "")] ++
          (plainField "Int8" .Int8 (some "x-int8"), .int 0) ::
            [(plainField "Bool" .Bool (some "x-bool"), .bool false)])
        [("X-Bool", ["true"]), ("X-Int8", ["5", "6", "7"])] :=
  first_value_only testFloatLib [(plainField "String" .String (some "x-string"), .string "")]
    [(plainField "Bool" .Bool (some "x-bool"), .bool false)]
    (plainField "Int8" .Int8 (some "x-int8")) (.int 0)
    [("X-Int8", ["5", "bad"]), ("X-Bool", ["true"])]
    [("X-Bool", ["true"]), ("X-Int8", ["5", "6", "7"])] "x-int8" "5" ["bad"] ["6", "7"]
    rfl (by decide) rfl rfl (by decide) (by decide)
    (by
      intro slot hmem
      simp only [List.cons_append, List.nil_append, List.mem_cons, List.mem_singleton,
        List.mem_nil_iff, or_false] at hmem
      rcases hmem with hmem | hmem <;> subst hmem <;> decide)

/-! ## The canonical form of a key -/

theorem scanKey_valid (a : List Char) (noCanon : Bool)
    (hvalid : a.all (fun c => validHeaderFieldByte c.toNat) = true) :
    scanKey a noCanon = some noCanon := by
  induction a with
  | nil => rfl
  | cons c cs ih =>
    simp only [List.all_cons, Bool.and_eq_true] at hvalid
    simp only [scanKey, hvalid.1, if_true]
    exact ih hvalid.2

/-- The quick check of `CanonicalMIMEHeaderKey` on a key of valid bytes: when the part
already looked at is in canonical form, the result is the canonical form of the key. -/
theorem canonicalKeyLoop_valid (rest : List Char) :
    ∀ (pre : List Char) (upper : Bool),
      (pre ++ rest).all (fun c => validHeaderFieldByte c.toNat) = true →
      canonLoop (pre ++ rest) true = pre ++ canonLoop rest upper →
      canonicalKeyLoop (pre ++ rest) rest upper = canonLoop (pre ++ rest) true := by
  induction rest with
  | nil =>
    intro pre upper _ hcanon
    simpa [canonicalKeyLoop, canonLoop] using hcanon.symm
  | cons c rest ih =>
    intro pre upper hvalid hcanon
    have hc : validHeaderFieldByte c.toNat = true := by
      simp only [List.all_append, List.all_cons, Bool.and_eq_true] at hvalid
      exact hvalid.2.1
    have hfull : (canonicalMIMEHeaderKey (pre ++ c :: rest)).1
        = canonLoop (pre ++ c :: rest) true := by
      unfold canonicalMIMEHeaderKey
      rw [if_neg (by simp), scanKey_valid _ false hvalid]
    simp only [canonicalKeyLoop, hc, not_true_eq_false, if_false]
    by_cases h1 : upper = true ∧ 97 ≤ c.toNat ∧ c.toNat ≤ 122
    · rw [if_pos h1, hfull]
    · rw [if_neg h1]
      by_cases h2 : ¬ upper = true ∧ 65 ≤ c.toNat ∧ c.toNat ≤ 90
      · rw [if_pos h2, hfull]
      · rw [if_neg h2]
        have hsplit : pre ++ c :: rest = (pre ++ [c]) ++ rest := by simp
        rw [hsplit] at hvalid ⊢
        apply ih (pre ++ [c]) _ hvalid
        rw [← hsplit, hcanon]
        simp only [canonLoop, if_neg h1, if_neg h2, List.append_assoc, List.singleton_append]

/-- `CanonicalMIMEHeaderKey` on a key of valid bytes: upper case at the start and after
every dash, lower case elsewhere. -/
theorem CanonicalMIMEHeaderKey_valid (k : String) (hvalid : validKey k = true) :
    CanonicalMIMEHeaderKey k = ⟨canonLoop k.data true⟩ := by
  have := canonicalKeyLoop_valid k.data [] true (by simpa [validKey] using hvalid) (by simp)
  simp only [List.nil_append] at this
  simp [CanonicalMIMEHeaderKey, this]

theorem sameLetter_cases (c d : Char) (h : sameLetter c d = true) :
    c = d ∨ (65 ≤ c.toNat ∧ c.toNat ≤ 90 ∧ d.toNat = c.toNat + 32) ∨
      (65 ≤ d.toNat ∧ d.toNat ≤ 90 ∧ c.toNat = d.toNat + 32) := by
  simp only [sameLetter, Bool.or_eq_true, Bool.and_eq_true, decide_eq_true_eq] at h
  tauto

theorem validHeaderFieldByte_letter (n : Nat) (h1 : 65 ≤ n) (h2 : n ≤ 90) :
    validHeaderFieldByte n = true ∧ validHeaderFieldByte (n + 32) = true := by
  interval_cases n <;> decide

theorem sameLetter_valid (c d : Char) (h : sameLetter c d = true) :
    validHeaderFieldByte c.toNat = validHeaderFieldByte d.toNat := by
  rcases sameLetter_cases c d h with heq | ⟨h1, h2, h3⟩ | ⟨h1, h2, h3⟩
  · rw [heq]
  · rw [h3, (validHeaderFieldByte_letter _ h1 h2).1, (validHeaderFieldByte_letter _ h1 h2).2]
  · rw [h3, (validHeaderFieldByte_letter _ h1 h2).1, (validHeaderFieldByte_letter _ h1 h2).2]

theorem sameFold_valid : ∀ (a b : List Char), sameFold a b = true →
    a.all (fun c => validHeaderFieldByte c.toNat) = b.all (fun c => validHeaderFieldByte c.toNat)
  | [], [], _ => rfl
  | [], _ :: _, h => by simp [sameFold] at h
  | _ :: _, [], h => by simp [sameFold] at h
  | c :: cs, d :: ds, h => by
    simp only [sameFold, Bool.and_eq_true] at h
    simp only [List.all_cons, sameLetter_valid c d h.1, sameFold_valid cs ds h.2]

/-- The canonical form does not depend on the case of the letters. -/
theorem canonLoop_sameFold : ∀ (a b : List Char) (upper : Bool), sameFold a b = true →
    canonLoop a upper = canonLoop b upper
  | [], [], _, _ => rfl
  | [], _ :: _, _, h => by simp [sameFold] at h
  | _ :: _, [], _, h => by simp [sameFold] at h
  | c :: cs, d :: ds, upper, h => by
    simp only [sameFold, Bool.and_eq_true] at h
    have hhead :
        (if upper = true ∧ 97 ≤ c.toNat ∧ c.toNat ≤ 122 then Char.ofNat (c.toNat - 32)
          else if ¬ upper = true ∧ 65 ≤ c.toNat ∧ c.toNat ≤ 90 then Char.ofNat (c.toNat + 32)
          else c)
        = (if upper = true ∧ 97 ≤ d.toNat ∧ d.toNat ≤ 122 then Char.ofNat (d.toNat - 32)
          else if ¬ upper = true ∧ 65 ≤ d.toNat ∧ d.toNat ≤ 90 then Char.ofNat (d.toNat + 32)
          else d) := by
      rcases sameLetter_cases c d h.1 with heq | ⟨h1, h2, h3⟩ | ⟨h1, h2, h3⟩
      · rw [heq]
      · cases upper
        · rw [if_neg (by simp), if_pos ⟨by simp, h1, h2⟩, if_neg (by simp),
            if_neg (by omega), ← h3, Char.ofNat_toNat]
        · rw [if_neg (by omega), if_neg (by simp), if_pos ⟨rfl, by omega, by omega⟩]
          have hsub : d.toNat - 32 = c.toNat := by omega
          rw [hsub, Char.ofNat_toNat]
      · cases upper
        · rw [if_neg (by simp), if_neg (by omega), if_neg (by simp),
            if_pos ⟨by simp, h1, h2⟩, ← h3, Char.ofNat_toNat]
        · rw [if_pos ⟨rfl, by omega, by omega⟩, if_neg (by omega), if_neg (by simp)]
          have hsub : c.toNat - 32 = d.toNat := by omega
          rw [hsub, Char.ofNat_toNat]
    simp only [canonLoop, hhead]
    rw [canonLoop_sameFold cs ds _ h.2]

/-- Two keys of valid bytes that differ only in letter case have one canonical form. -/
theorem CanonicalMIMEHeaderKey_fold (k1 k2 : String) (hvalid : validKey k1 = true)
    (hfold : differOnlyInCase k1 k2 = true) :
    CanonicalMIMEHeaderKey k1 = CanonicalMIMEHeaderKey k2 := by
  have hvalid2 : validKey k2 = true := by
    unfold validKey at hvalid ⊢
    rw [← sameFold_valid k1.data k2.data hfold]
    exact hvalid
  rw [CanonicalMIMEHeaderKey_valid k1 hvalid, CanonicalMIMEHeaderKey_valid k2 hvalid2,
    canonLoop_sameFold k1.data k2.data true hfold]

theorem sameFold_dash (k1 k2 : String) (hfold : differOnlyInCase k1 k2 = true) :
    k1 = "-" ↔ k2 = "-" := by
  obtain ⟨d1⟩ := k1
  obtain ⟨d2⟩ := k2
  have hdash : ∀ c : Char, sameLetter '-' c = true ∨ sameLetter c '-' = true → c = '-' := by
    intro c hc
    rcases hc with hc | hc
    · rcases sameLetter_cases _ _ hc with heq | ⟨h1, _, _⟩ | ⟨h1, h2, h3⟩
      · exact heq.symm
      · exact absurd h1 (by decide)
      · have h45 : ('-' : Char).toNat = 45 := by decide
        omega
    · rcases sameLetter_cases _ _ hc with heq | ⟨h1, h2, h3⟩ | ⟨h1, _, _⟩
      · exact heq
      · have h45 : ('-' : Char).toNat = 45 := by decide
        omega
      · exact absurd h1 (by decide)
  unfold differOnlyInCase at hfold
  simp only at hfold
  constructor
  · intro h1
    have hd1 : d1 = ['-'] := by simpa using congrArg String.data h1
    subst hd1
    match d2, hfold with
    | [c], hfold =>
      simp only [sameFold, Bool.and_true] at hfold
      rw [hdash c (Or.inl hfold)]
    | [], hfold => simp [sameFold] at hfold
    | _ :: _ :: _, hfold => simp [sameFold] at hfold
  · intro h2
    have hd2 : d2 = ['-'] := by simpa using congrArg String.data h2
    subst hd2
    match d1, hfold with
    | [c], hfold =>
      simp only [sameFold, Bool.and_true] at hfold
      rw [hdash c (Or.inr hfold)]
    | [], hfold => simp [sameFold] at hfold
    | _ :: _ :: _, hfold => simp [sameFold] at hfold

/-- C14, as amended.  Key lookup does not depend on the case of the letters of a key made
of valid header field bytes: for two such keys that differ only in ASCII letter case, the
canonical form is the same, every header map gives the same values for both, a field has
the same iteration under either tag, and two records that differ only in which of the two
keys the field carries are bound alike (the same result, the same values). -/
theorem case_insensitive_lookup (lib : FloatLib) (pre post : Record) (f : StructField)
    (v : Value) (h : Header) (k1 k2 : String) (hvalid : validKey k1 = true)
    (hfold : differOnlyInCase k1 k2 = true) :
    CanonicalMIMEHeaderKey k1 = CanonicalMIMEHeaderKey k2 ∧
      h.Values k1 = h.Values k2 ∧
      fieldStep lib h (f.withTag k1) v = fieldStep lib h (f.withTag k2) v ∧
      (UnmarshalHeaders lib (pre ++ (f.withTag k1, v) :: post) h).2
        = (UnmarshalHeaders lib (pre ++ (f.withTag k2, v) :: post) h).2 ∧
      (UnmarshalHeaders lib (pre ++ (f.withTag k1, v) :: post) h).1.values
        = (UnmarshalHeaders lib (pre ++ (f.withTag k2, v) :: post) h).1.values := by
  have hcanon := CanonicalMIMEHeaderKey_fold k1 k2 hvalid hfold
  have hvals : h.Values k1 = h.Values k2 := by simp [Header.Values, hcanon]
  have hstep : ∀ x, fieldStep lib h (f.withTag k1) x = fieldStep lib h (f.withTag k2) x := by
    intro x
    have hset : ∀ vs, setValueFromHeader lib (f.withTag k1) x vs
        = setValueFromHeader lib (f.withTag k2) x vs := fun _ => rfl
    by_cases hd : k1 = "-"
    · have hd2 := (sameFold_dash k1 k2 hfold).1 hd
      simp [fieldStep, StructField.withTag, hd, hd2]
    · have hd2 : k2 ≠ "-" := fun hx => hd ((sameFold_dash k1 k2 hfold).2 hx)
      simp only [fieldStep, StructField.withTag, if_neg hd, if_neg hd2, hvals]
      split
      · rfl
      · exact hset _
  refine ⟨hcanon, hvals, hstep v, ?_⟩
  by_cases hnil : h = []
  · subst hnil
    simp [UnmarshalHeaders, Record.values]
  · rw [UnmarshalHeaders_eq_loop lib _ h hnil, UnmarshalHeaders_eq_loop lib _ h hnil]
    apply fieldLoop_congr_fields
    apply List.rel_append
    · exact List.forall₂_same.2 (fun _ _ => ⟨rfl, fun _ => rfl⟩)
    · exact List.Forall₂.cons ⟨rfl, hstep⟩
        (List.forall₂_same.2 (fun _ _ => ⟨rfl, fun _ => rfl⟩))

/-- The field `Int` of `testStruct` annotated `x-int` or `X-INT`, with the entry stored as
`X-Int`: the same values are found, and the field ends as 7 under either key. -/
theorem case_insensitive_lookup_witness :
    Header.Values [("X-Int", ["7"])] "x-int" = Header.Values [("X-Int", ["7"])] "X-INT" ∧
    (UnmarshalHeaders testFloatLib
        ([] ++ ((plainField "Int" .Int none).withTag "x-int", .int 0) :: [])
        [("X-Int", ["7"])]).1.values = [.int 7] ∧
    (UnmarshalHeaders testFloatLib
        ([] ++ ((plainField "Int" .Int none).withTag "X-INT", .int 0) :: [])
        [("X-Int", ["7"])]).1.values = [.int 7] :=
  have hall := case_insensitive_lookup testFloatLib [] [] (plainField "Int" .Int none) (.int 0)
    [("X-Int", ["7"])] "x-int" "X-INT" (by decide) (by decide)
  ⟨hall.2.1, by decide, hall.2.2.2.2 ▸ (by decide)⟩

/-- C14 as it is stated fails for a key with a byte that is not a valid header field byte,
such as a space: `x int` and `X int` differ only in letter case, but neither is put in
canonical form, so with the entry stored as `x int` the field annotated `x int` is bound
and the field annotated `X int` is skipped. -/
theorem case_sensitive_invalid_key :
    differOnlyInCase "x int" "X int" = true ∧
    Header.Values [("x int", ["7"])] "x int" = ["7"] ∧
    Header.Values [("x int", ["7"])] "X int" = [] ∧
    (UnmarshalHeaders testFloatLib [((plainField "Int" .Int none).withTag "x int", .int 0)]
        [("x int", ["7"])]).1.values = [.int 7] ∧
    (UnmarshalHeaders testFloatLib [((plainField "Int" .Int none).withTag "X int", .int 0)]
        [("x int", ["7"])]).1.values = [.int 0] := by
  decide

/-! ## Each field from its own key -/

/-- The iteration of a field looks at the header map only through the values under the
field's own key. -/
theorem fieldStep_values_congr (lib : FloatLib) (h1 h2 : Header) (f : StructField)
    (v : Value) (hkey : ∀ key, f.Tag = some key → h1.Values key = h2.Values key) :
    fieldStep lib h1 f v = fieldStep lib h2 f v := by
  cases htag : f.Tag with
  | none => simp [fieldStep, htag]
  | some key => simp [fieldStep, htag, hkey key htag]

theorem fieldStep_nil (lib : FloatLib) (f : StructField) (v : Value) :
    fieldStep lib [] f v = (v, .ok) := by
  cases htag : f.Tag <;> simp [fieldStep, htag, Header.Values, Header.index, Header.find?]

/-- A call that returns no error has left every field as its own single iteration leaves
it. -/
theorem UnmarshalHeaders_ok_values (lib : FloatLib) (v : Record) (h : Header)
    (hok : (UnmarshalHeaders lib v h).2 = .ok) :
    (UnmarshalHeaders lib v h).1 = v.map (bound lib h) := by
  by_cases hnil : h = []
  · subst hnil
    have hid : ∀ r : Record, r.map (bound lib []) = r := by
      intro r
      induction r with
      | nil => rfl
      | cons slot rest ih => simp [bound, fieldStep_nil, ih]
    have hid := hid v
    simp [UnmarshalHeaders, hid]
  · rw [UnmarshalHeaders_eq_loop lib v h hnil] at hok ⊢
    exact fieldLoop_ok_values lib h v hok

/-- C15. Annotation keys are independent: two header maps that hold the same value list
under the key of the field `f`, and two calls on the same record that both return no
error.  Then `f` has the same value after both calls; this value is what the single
iteration of `f` makes of its old value, which depends on the map only through the values
under the key of `f`; and after either call every field holds what its own single iteration
gives it. -/
theorem annotation_keys_independent (lib : FloatLib) (pre post : Record) (f : StructField)
    (v : Value) (h1 h2 : Header)
    (hkey : ∀ key, f.Tag = some key → h1.Values key = h2.Values key)
    (hok1 : (UnmarshalHeaders lib (pre ++ (f, v) :: post) h1).2 = .ok)
    (hok2 : (UnmarshalHeaders lib (pre ++ (f, v) :: post) h2).2 = .ok) :
    (UnmarshalHeaders lib (pre ++ (f, v) :: post) h1).1[pre.length]?
        = (UnmarshalHeaders lib (pre ++ (f, v) :: post) h2).1[pre.length]? ∧
      (UnmarshalHeaders lib (pre ++ (f, v) :: post) h1).1[pre.length]?
        = some (f, (fieldStep lib h1 f v).1) ∧
      fieldStep lib h1 f v = fieldStep lib h2 f v ∧
      (UnmarshalHeaders lib (pre ++ (f, v) :: post) h1).1
        = (pre ++ (f, v) :: post).map (bound lib h1) ∧
      (UnmarshalHeaders lib (pre ++ (f, v) :: post) h2).1
        = (pre ++ (f, v) :: post).map (bound lib h2) := by
  have hv1 := UnmarshalHeaders_ok_values lib _ h1 hok1
  have hv2 := UnmarshalHeaders_ok_values lib _ h2 hok2
  have hstep := fieldStep_values_congr lib h1 h2 f v hkey
  have hat : ∀ h : Header, ((pre ++ (f, v) :: post).map (bound lib h))[pre.length]?
      = some (f, (fieldStep lib h f v).1) := by
    intro h
    rw [List.map_append, List.map_cons]
    exact get?_after _ pre _ _ (by simp)
  refine ⟨?_, ?_, hstep, hv1, hv2⟩
  · rw [hv1, hv2, hat h1, hat h2, hstep]
  · rw [hv1, hat h1]

/-- The field `Int8` of `testStruct` between `String` and `Bool`, under two maps that
agree on `X-Int8` and differ on the other keys: it ends as 5 in both runs. -/
theorem annotation_keys_independent_witness :
    (UnmarshalHeaders testFloatLib
        ([(plainField "String" .String (some "x-string"), .string "")] ++
          (plainField "Int8" .Int8 (some "x-int8"), .int 0) ::
            [(plainField "Bool" .Bool (some "x-bool"), .bool false)])
        [("X-String", ["a"]), ("X-Int8", ["5"]), ("X-Bool", ["true"])]).1[
          [(plainField "String" .String (some "x-string"), Value.string "")].length]?
      = (UnmarshalHeaders testFloatLib
        ([(plainField "String" .String (some "x-string"), .string "")] ++
          (plainField "Int8" .Int8 (some "x-int8"), .int 0) ::
            [(plainField "Bool" .Bool (some "x-bool"), .bool false)])
        [("X-Int8", ["5"]), ("X-String", ["b"]), ("X-Int", ["9"])]).1[
          [(plainField "String" .String (some "x-string"), Value.string "")].length]? ∧
    (fieldStep testFloatLib [("X-String", ["a"]), ("X-Int8", ["5"]), ("X-Bool", ["true"])]
        (plainField "Int8" .Int8 (some "x-int8")) (.int 0)).1 = .int 5 :=
  have hall := annotation_keys_independent testFloatLib
    [(plainField "String" .String (some "x-string"), .string "")]
    [(plainField "Bool" .Bool (some "x-bool"), .bool false)]
    (plainField "Int8" .Int8 (some "x-int8")) (.int 0)
    [("X-String", ["a"]), ("X-Int8", ["5"]), ("X-Bool", ["true"])]
    [("X-Int8", ["5"]), ("X-String", ["b"]), ("X-Int", ["9"])]
    (by
      intro key hkey
      have hk : key = "x-int8" := by
        simp only [plainField, Option.some.injEq] at hkey
        exact hkey.symm
      subst hk
      decide)
    (by decide) (by decide)
  ⟨hall.1, by decide⟩

/-! ## Valid integer literals -/

/-- The loop of `ParseUint` on decimal digits: the number they denote, or the range error
when it does not fit 64 bits. -/
theorem parseUintLoop_valid (s0 : String) (cs : List Char) :
    ∀ n, n < 2 ^ 64 → cs.all isDecimalDigit = true →
      parseUintLoop s0 ((2 ^ 64 - 1) / 10 + 1) ((2 ^ 64 - 1) % 2 ^ 64) cs n
        = if decimalFrom n cs < 2 ^ 64 then (decimalFrom n cs, none)
          else (2 ^ 64 - 1, some (rangeError "ParseUint" s0)) := by
  induction cs with
  | nil =>
    intro n hn _
    simp only [decimalFrom, List.foldl_nil]
    rw [if_pos hn, parseUintLoop]
  | cons c cs ih =>
    intro n hn hall
    simp only [List.all_cons, Bool.and_eq_true] at hall
    obtain ⟨hc, hcs⟩ := hall
    have hc2 : 48 ≤ c.toNat ∧ c.toNat ≤ 57 := by simpa [isDecimalDigit] using hc
    have hstep : decimalFrom n (c :: cs) = decimalFrom (n * 10 + (c.toNat - 48)) cs := by
      simp [decimalFrom]
    have hge := decimalFrom_ge cs (n * 10 + (c.toNat - 48))
    rw [hstep, parseUintLoop, digitVal_of_digit _ hc2.1 hc2.2]
    simp only
    rw [if_neg (by omega)]
    by_cases hcut : n ≥ (2 ^ 64 - 1) / 10 + 1
    · rw [if_pos hcut, if_neg (by omega)]
      exact Prod.ext (by norm_num) rfl
    · rw [if_neg hcut]
      have h10 : (n * 10) % 2 ^ 64 = n * 10 := Nat.mod_eq_of_lt (by omega)
      rw [h10]
      by_cases hov : n * 10 + (c.toNat - 48) < 2 ^ 64
      · rw [Nat.mod_eq_of_lt hov, if_neg (by omega)]
        exact ih _ hov hcs
      · have hmod : (n * 10 + (c.toNat - 48)) % 2 ^ 64
            = n * 10 + (c.toNat - 48) - 2 ^ 64 := by
          rw [Nat.mod_eq_sub_mod (by omega), Nat.mod_eq_of_lt (by omega)]
        rw [hmod, if_pos (Or.inl (by omega)), if_neg (by omega)]
        exact Prod.ext (by norm_num) rfl

/-- `ParseUint` on one or more decimal digits. -/
theorem ParseUint_valid (cs : List Char) (h : isDecimal cs = true) :
    ParseUint ⟨cs⟩ 64
      = if decimalFrom 0 cs < 2 ^ 64 then (decimalFrom 0 cs, none)
        else (2 ^ 64 - 1, some (rangeError "ParseUint" ⟨cs⟩)) := by
  simp only [isDecimal, Bool.and_eq_true, Bool.not_eq_true', List.isEmpty_eq_false] at h
  unfold ParseUint
  rw [if_neg (string_ne_empty _ h.1)]
  exact parseUintLoop_valid ⟨cs⟩ cs 0 (by decide) h.2

/-- The last step of `ParseInt` on the result of `ParseUint` for a string without `-`. -/
theorem ParseInt_valid_plain (s0 : String) (s : String) (u : Nat) (hne : s0 ≠ "")
    (hstrip : (if s0.data.head? = some '+' then (⟨s0.data.tail⟩ : String)
      else if s0.data.head? = some '-' then ⟨s0.data.tail⟩ else s0) = s)
    (hminus : ¬ s0.data.head? = some '-')
    (hu : ParseUint s 64 = if u < 2 ^ 64 then (u, none)
      else (2 ^ 64 - 1, some (rangeError "ParseUint" s))) :
    ((u : Int) < 2 ^ 63 → ParseInt s0 64 = ((u : Int), none)) ∧
      (¬ (u : Int) < 2 ^ 63 → (ParseInt s0 64).2 = some (.NumError "ParseInt" s0 .ErrRange)) := by
  have h64 : ¬ ((64 : Nat) = 0) := by decide
  unfold ParseInt
  rw [if_neg hne]
  simp only [hstrip, hu, if_neg h64]
  constructor
  · intro hlt
    have hlt' : u < 2 ^ 63 := by omega
    rw [if_pos (by omega)]
    simp only
    rw [if_neg (by simp [hminus]; omega), if_neg (by simp [hminus])]
    simp only [hminus, if_false, Prod.mk.injEq, and_true]
    unfold wrapInt
    omega
  · intro hge
    have hge' : 2 ^ 63 ≤ u := by omega
    by_cases h64u : u < 2 ^ 64
    · rw [if_pos h64u]
      simp only
      rw [if_pos ⟨hminus, by simpa using hge'⟩]
      rfl
    · rw [if_neg h64u]
      simp [rangeError, hminus]

/-- The last step of `ParseInt` on the result of `ParseUint` for a string that starts with
`-`. -/
theorem ParseInt_valid_minus (cs : List Char) (u : Nat)
    (hu : ParseUint ⟨cs⟩ 64 = if u < 2 ^ 64 then (u, none)
      else (2 ^ 64 - 1, some (rangeError "ParseUint" ⟨cs⟩))) :
    (u ≤ 2 ^ 63 → ParseInt ⟨'-' :: cs⟩ 64 = (-(u : Int), none)) ∧
      (¬ u ≤ 2 ^ 63 →
        (ParseInt ⟨'-' :: cs⟩ 64).2 = some (.NumError "ParseInt" ⟨'-' :: cs⟩ .ErrRange)) := by
  have h64 : ¬ ((64 : Nat) = 0) := by decide
  constructor
  · intro hle
    rw [if_pos (by omega)] at hu
    rw [ParseInt_minus_ok cs u hu hle]
    simp only [Prod.mk.injEq, and_true]
    unfold wrapInt
    omega
  · intro hgt
    unfold ParseInt
    rw [if_neg (string_ne_empty _ (by simp))]
    simp only [List.head?_cons, List.tail_cons, if_true, if_neg h64, ite_self]
    rw [hu]
    by_cases h64u : u < 2 ^ 64
    · rw [if_pos h64u]
      simp only
      rw [if_neg (by simp), if_pos ⟨trivial, by omega⟩]
      rfl
    · rw [if_neg h64u]
      simp [rangeError]

/-- `ParseInt` on an optional sign followed by one or more decimal digits: the number the
literal denotes when it fits 64 bits, the range error otherwise. -/
theorem ParseInt_valid (s : String) (h : validIntLiteral s = true) :
    (-(2 : Int) ^ 63 ≤ literalValue s → literalValue s < 2 ^ 63 →
        ParseInt s 64 = (literalValue s, none)) ∧
      (¬ (-(2 : Int) ^ 63 ≤ literalValue s ∧ literalValue s < 2 ^ 63) →
        (ParseInt s 64).2 = some (.NumError "ParseInt" s .ErrRange)) := by
  obtain ⟨data⟩ := s
  cases data with
  | nil => simp [validIntLiteral, unsignedPart, isDecimal] at h
  | cons c cs =>
    unfold validIntLiteral at h
    by_cases hm : c = '-'
    · subst hm
      have hu : unsignedPart ⟨'-' :: cs⟩ = cs := by simp [unsignedPart]
      have hval : literalValue ⟨'-' :: cs⟩ = -(decimalFrom 0 cs : Int) := by
        simp [literalValue, hu]
      rw [hu] at h
      obtain ⟨hok, hbad⟩ := ParseInt_valid_minus cs (decimalFrom 0 cs) (ParseUint_valid cs h)
      rw [hval]
      constructor
      · intro hlo _
        exact hok (by omega)
      · intro hout
        exact hbad (by omega)
    · by_cases hp : c = '+'
      · subst hp
        have hu : unsignedPart ⟨'+' :: cs⟩ = cs := by simp [unsignedPart]
        have hval : literalValue ⟨'+' :: cs⟩ = (decimalFrom 0 cs : Int) := by
          simp [literalValue, hu]
        rw [hu] at h
        obtain ⟨hok, hbad⟩ := ParseInt_valid_plain ⟨'+' :: cs⟩ ⟨cs⟩ (decimalFrom 0 cs)
          (string_ne_empty _ (by simp)) (by simp) (by simp) (ParseUint_valid cs h)
        rw [hval]
        constructor
        · intro _ hhi
          exact hok hhi
        · intro hout
          exact hbad (by omega)
      · have hu : unsignedPart ⟨c :: cs⟩ = c :: cs := by simp [unsignedPart, hp, hm]
        have hval : literalValue ⟨c :: cs⟩ = (decimalFrom 0 (c :: cs) : Int) := by
          simp [literalValue, hu, hm]
        rw [hu] at h
        obtain ⟨hok, hbad⟩ := ParseInt_valid_plain ⟨c :: cs⟩ ⟨c :: cs⟩ (decimalFrom 0 (c :: cs))
          (string_ne_empty _ (by simp)) (by simp [hp, hm]) (by simp [hm])
          (ParseUint_valid (c :: cs) h)
        rw [hval]
        constructor
        · intro _ hhi
          exact hok hhi
        · intro hout
          exact hbad (by omega)

/-- The value of a conversion to a `bits`-bit signed integer lies in the range of the type
and is congruent to the value converted modulo `2^bits`. -/
theorem wrapInt_spec (bits : Nat) (n : Int) (hb : 0 < bits) :
    -(2 : Int) ^ (bits - 1) ≤ wrapInt bits n ∧ wrapInt bits n < (2 : Int) ^ (bits - 1) ∧
      (wrapInt bits n - n) % (2 : Int) ^ bits = 0 := by
  have hpow : (2 : Int) ^ bits = 2 * 2 ^ (bits - 1) := by
    obtain ⟨k, rfl⟩ : ∃ k, bits = k + 1 := ⟨bits - 1, by omega⟩
    simp [pow_succ, mul_comm]
  have hpos : (0 : Int) < 2 ^ (bits - 1) := by positivity
  have hm : (0 : Int) < 2 ^ bits := by positivity
  have h0 := Int.emod_nonneg (n + 2 ^ (bits - 1)) (ne_of_gt hm)
  have h1 := Int.emod_lt_of_pos (n + 2 ^ (bits - 1)) hm
  unfold wrapInt
  refine ⟨by omega, by omega, ?_⟩
  have hdiv := Int.emod_add_ediv (n + 2 ^ (bits - 1)) (2 ^ bits)
  apply Int.emod_eq_zero_of_dvd
  refine ⟨-((n + 2 ^ (bits - 1)) / 2 ^ bits), ?_⟩
  rw [mul_neg]
  omega

theorem setValueFromHeader_int (lib : FloatLib) (f : StructField) (v : Value) (s : String)
    (rest : List String) (n : Int) (hexp : f.IsExported = true)
    (hcustom : f.Typ.Custom = none) (hkind : isIntKind f.Typ.Kind = true)
    (hparse : ParseInt s 64 = (n, none)) :
    setValueFromHeader lib f v (s :: rest)
      = (.int (wrapInt (f.Typ.Kind.intBits.getD 64) n), .ok) := by
  unfold setValueFromHeader
  rw [if_neg (by simp [hexp]), hcustom]
  cases hk : f.Typ.Kind <;> simp [hk, isIntKind, Kind.intBits] at hkind <;>
    simp [hparse, SetInt, Kind.intBits]

theorem intBits_pos (k : Kind) (w : Nat) (h : k.intBits = some w) : 0 < w := by
  cases k <;> simp [Kind.intBits, IntSize] at h <;> omega

/-- C16, as amended.  Narrowing of signed integers is unguarded truncation: an exported
field of a predeclared signed integer type of width `w` whose first value is the base-10 form of an integer `n`
with `-2^63 ≤ n ≤ 2^63 - 1`.  When the fields before it bind without error, the field
holds afterwards the `w`-bit two's-complement value congruent to `n` modulo `2^w`
(`wrapInt w n`), also when `n` does not fit `w` bits, and no error arises from the field:
the call ends as the bind of the fields after it ends. -/
theorem signed_narrowing_truncates (lib : FloatLib) (pre post : Record) (f : StructField)
    (v : Value) (h : Header) (key : String) (rest : List String) (n : Int) (w : Nat)
    (htag : f.Tag = some key) (hkey : key ≠ "-") (hexp : f.IsExported = true)
    (hcustom : f.Typ.Custom = none)
    (hbits : f.Typ.Kind.intBits = some w) (hvals : h.Values key = FormatInt n :: rest)
    (hlo : -(2 : Int) ^ 63 ≤ n) (hhi : n < (2 : Int) ^ 63)
    (hpre : (UnmarshalHeaders lib pre h).2 = .ok) :
    (UnmarshalHeaders lib (pre ++ (f, v) :: post) h).1[pre.length]?
        = some (f, .int (wrapInt w n)) ∧
      -(2 : Int) ^ (w - 1) ≤ wrapInt w n ∧ wrapInt w n < (2 : Int) ^ (w - 1) ∧
      (wrapInt w n - n) % (2 : Int) ^ w = 0 ∧
      (UnmarshalHeaders lib (pre ++ (f, v) :: post) h).2 = (UnmarshalHeaders lib post h).2 := by
  have hne := Header.ne_nil_of_values h key _ rest hvals
  have hkind : isIntKind f.Typ.Kind = true := by simp [isIntKind, hbits]
  have hstep : fieldStep lib h f v = (.int (wrapInt w n), .ok) := by
    rw [fieldStep_bound lib h f v key _ rest htag hkey hvals,
      setValueFromHeader_int lib f v _ rest n hexp hcustom hkind (ParseInt_FormatInt n hlo hhi), hbits]
    rfl
  obtain ⟨h1, h2, h3⟩ := wrapInt_spec w n (intBits_pos _ w hbits)
  rw [UnmarshalHeaders_at lib pre post f v _ .ok h hne hpre hstep, if_pos rfl]
  exact ⟨get?_after _ pre _ _ (UnmarshalHeaders_length lib pre h), h1, h2, h3, rfl⟩

/-- The value `300` bound to the field `Int8` of `testStruct` gives 44, with no error. -/
theorem signed_narrowing_truncates_witness :
    (UnmarshalHeaders testFloatLib
        ((testRecord testStructZero).take 3 ++
          (plainField "Int8" .Int8 (some "x-int8"), .int 0) ::
            (testRecord testStructZero).drop 4)
        [("X-Int8", ["300"])]).1[((testRecord testStructZero).take 3).length]?
      = some (plainField "Int8" .Int8 (some "x-int8"), .int 44) ∧
    (UnmarshalHeaders testFloatLib
        ((testRecord testStructZero).take 3 ++
          (plainField "Int8" .Int8 (some "x-int8"), .int 0) ::
            (testRecord testStructZero).drop 4)
        [("X-Int8", ["300"])]).2 = .ok :=
  have hall := signed_narrowing_truncates testFloatLib ((testRecord testStructZero).take 3)
    ((testRecord testStructZero).drop 4) (plainField "Int8" .Int8 (some "x-int8")) (.int 0)
    [("X-Int8", ["300"])] "x-int8" [] 300 8 rfl (by decide) rfl rfl rfl (by decide)
    (by decide) (by decide) (by decide)
  ⟨hall.1.trans
      (congrArg (fun x => some (plainField "Int8" .Int8 (some "x-int8"), Value.int x))
        (show wrapInt 8 300 = 44 by decide)),
    hall.2.2.2.2.trans (by decide)⟩

/-- C16 as it is stated fails for an unexported field: the field `small int8` tagged
`x-small`, with the header `X-Small: 300` (`300` is the base-10 form of 300).  The call
does not succeed and the field does not hold 44: the call panics in
`value.Addr().Interface()` and the field still holds 0. -/
theorem narrowing_unexported_panics :
    FormatInt 300 = "300" ∧ wrapInt 8 300 = 44 ∧
    (UnmarshalHeaders testFloatLib
        [((plainField "Small" .Int8 (some "x-small")).unexported "small", .int 0)]
        [("X-Small", ["300"])]).2
      = .panic "reflect.Value.Interface: cannot return value obtained from unexported field or method" ∧
    (UnmarshalHeaders testFloatLib
        [((plainField "Small" .Int8 (some "x-small")).unexported "small", .int 0)]
        [("X-Small", ["300"])]).1.values = [.int 0] := by
  decide

/-- C17, as amended.  The exact success condition for signed integers: an exported field of
a predeclared signed integer type of any width whose key holds the first value `s`.  Its iteration succeeds
exactly when `s` is an optional single `+` or `-` followed by one or more decimal digits
and nothing else (`validIntLiteral`) and the number it denotes lies in `[-2^63, 2^63 - 1]`;
the field then holds that number converted to its type.  Otherwise the iteration fails
with a `NumError` of `ParseInt` for `s` (with the range error when `s` is a valid literal,
so that only the magnitude is at fault) and the field is unchanged.  When the fields
before it bind without error, the call leaves the field so and, on a failure, returns that
error. -/
theorem signed_success_condition (lib : FloatLib) (pre post : Record) (f : StructField)
    (v : Value) (h : Header) (key s : String) (rest : List String)
    (htag : f.Tag = some key) (hkey : key ≠ "-") (hexp : f.IsExported = true)
    (hcustom : f.Typ.Custom = none)
    (hkind : isIntKind f.Typ.Kind = true) (hvals : h.Values key = s :: rest)
    (hpre : (UnmarshalHeaders lib pre h).2 = .ok) :
    ((fieldStep lib h f v).2 = .ok ↔
      (validIntLiteral s = true ∧ -(2 : Int) ^ 63 ≤ literalValue s ∧
        literalValue s < (2 : Int) ^ 63)) ∧
    (validIntLiteral s = true → -(2 : Int) ^ 63 ≤ literalValue s →
      literalValue s < (2 : Int) ^ 63 →
      (UnmarshalHeaders lib (pre ++ (f, v) :: post) h).1[pre.length]?
          = some (f, .int (wrapInt (f.Typ.Kind.intBits.getD 64) (literalValue s))) ∧
        (UnmarshalHeaders lib (pre ++ (f, v) :: post) h).2
          = (UnmarshalHeaders lib post h).2) ∧
    (¬ (validIntLiteral s = true ∧ -(2 : Int) ^ 63 ≤ literalValue s ∧
        literalValue s < (2 : Int) ^ 63) →
      ∃ e, UnmarshalHeaders lib (pre ++ (f, v) :: post) h
          = ((UnmarshalHeaders lib pre h).1 ++ (f, v) :: post,
              .err (.NumError "ParseInt" s e)) ∧
        (validIntLiteral s = true → e = .ErrRange)) := by
  have hne := Header.ne_nil_of_values h key s rest hvals
  have hbound := fieldStep_bound lib h f v key s rest htag hkey hvals
  have hfailure := (setValueFromHeader_parse_failure lib f v s rest hexp hcustom).2.1 hkind
  have hlen := UnmarshalHeaders_length lib pre h
  by_cases hvalid : validIntLiteral s = true
  · obtain ⟨hin, hout⟩ := ParseInt_valid s hvalid
    by_cases hrange : -(2 : Int) ^ 63 ≤ literalValue s ∧ literalValue s < (2 : Int) ^ 63
    · have hstep : fieldStep lib h f v
          = (.int (wrapInt (f.Typ.Kind.intBits.getD 64) (literalValue s)), .ok) := by
        rw [hbound]
        exact setValueFromHeader_int lib f v s rest _ hexp hcustom hkind (hin hrange.1 hrange.2)
      refine ⟨⟨fun _ => ⟨hvalid, hrange⟩, fun _ => by rw [hstep]⟩, fun _ _ _ => ?_,
        fun hnot => absurd ⟨hvalid, hrange⟩ hnot⟩
      rw [UnmarshalHeaders_at lib pre post f v _ .ok h hne hpre hstep, if_pos rfl]
      exact ⟨get?_after _ pre _ _ hlen, rfl⟩
    · have hstep : fieldStep lib h f v = (v, .err (.NumError "ParseInt" s .ErrRange)) := by
        rw [hbound]
        exact hfailure _ (hout hrange)
      refine ⟨⟨fun hok => ?_, fun hyes => absurd hyes.2 hrange⟩,
        fun _ hlo hhi => absurd ⟨hlo, hhi⟩ hrange, fun _ => ⟨.ErrRange, ?_, fun _ => rfl⟩⟩
      · rw [hstep] at hok
        simp at hok
      · rw [UnmarshalHeaders_at lib pre post f v _ _ h hne hpre hstep]
        simp
  · have hinvalid : validIntLiteral s = false := by simpa using hvalid
    have hstep : fieldStep lib h f v
        = (v, .err (.NumError "ParseInt" s (invalidIntegerErr (unsignedPart s)))) := by
      rw [hbound]
      exact hfailure _ (ParseInt_invalid s hinvalid)
    refine ⟨⟨fun hok => ?_, fun hyes => absurd hyes.1 hvalid⟩,
      fun hyes => absurd hyes hvalid,
      fun _ => ⟨invalidIntegerErr (unsignedPart s), ?_, fun hyes => absurd hyes hvalid⟩⟩
    · rw [hstep] at hok
      simp at hok
    · rw [UnmarshalHeaders_at lib pre post f v _ _ h hne hpre hstep]
      simp

/-- The field `Int8` of `testStruct` with the value `+0042`, a valid literal that denotes
42: the field ends as 42. -/
theorem signed_success_condition_witness :
    (UnmarshalHeaders testFloatLib
        ((testRecord testStructZero).take 3 ++
          (plainField "Int8" .Int8 (some "x-int8"), .int 0) ::
            (testRecord testStructZero).drop 4)
        [("X-Int8", ["+0042"])]).1[((testRecord testStructZero).take 3).length]?
      = some (plainField "Int8" .Int8 (some "x-int8"), .int 42) ∧
    (UnmarshalHeaders testFloatLib
        ((testRecord testStructZero).take 3 ++
          (plainField "Int8" .Int8 (some "x-int8"), .int 0) ::
            (testRecord testStructZero).drop 4)
        [("X-Int8", ["+0042"])]).2 = .ok :=
  have hall := (signed_success_condition testFloatLib ((testRecord testStructZero).take 3)
    ((testRecord testStructZero).drop 4) (plainField "Int8" .Int8 (some "x-int8")) (.int 0)
    [("X-Int8", ["+0042"])] "x-int8" "+0042" [] rfl (by decide) rfl rfl rfl (by decide)
    (by decide)).2.1 (by decide) (by decide) (by decide)
  ⟨hall.1.trans
      (congrArg (fun x => some (plainField "Int8" .Int8 (some "x-int8"), Value.int x))
        (show wrapInt ((plainField "Int8" .Int8 (some "x-int8")).Typ.Kind.intBits.getD 64)
          (literalValue "+0042") = 42 by decide)),
    hall.2.trans (by decide)⟩

/-- C17 as it is stated fails for an unexported field: the field `total int64` tagged
`x-total`, with the header `X-Total: -17`.  The value is a sign followed by decimal digits
and denotes a number in range, yet the iteration of the field does not succeed: the call
panics in `value.Addr().Interface()` and the field still holds 0. -/
theorem signed_unexported_panics :
    validIntLiteral "-17" = true ∧ literalValue "-17" = -17 ∧
    (fieldStep testFloatLib [("X-Total", ["-17"])]
        ((plainField "Total" .Int64 (some "x-total")).unexported "total") (.int 0)).2 ≠ .ok ∧
    (UnmarshalHeaders testFloatLib
        [((plainField "Total" .Int64 (some "x-total")).unexported "total", .int 0)]
        [("X-Total", ["-17"])]).2
      = .panic "reflect.Value.Interface: cannot return value obtained from unexported field or method" ∧
    (UnmarshalHeaders testFloatLib
        [((plainField "Total" .Int64 (some "x-total")).unexported "total", .int 0)]
        [("X-Total", ["-17"])]).1.values = [.int 0] := by
  decide

/-! ## Entries under other keys -/

theorem Header.find?_under (h : Header) (k : String) : (h.under k).find? k = h.find? k := by
  induction h with
  | nil => rfl
  | cons e rest ih =>
    obtain ⟨k1, vs⟩ := e
    by_cases hk : k1 = k
    · simp [Header.under, List.filter_cons, Header.find?, hk]
    · have : Header.under ((k1, vs) :: rest) k = Header.under rest k := by
        simp [Header.under, List.filter_cons, hk]
      rw [this, ih]
      simp [Header.find?, hk]

theorem Header.find?_none (h : Header) (k : String) (hall : ∀ e ∈ h, e.1 ≠ k) :
    h.find? k = none := by
  induction h with
  | nil => rfl
  | cons e rest ih =>
    obtain ⟨k1, vs⟩ := e
    have hk : k1 ≠ k := hall (k1, vs) (by simp)
    simp only [Header.find?, if_neg hk]
    exact ih (fun e hmem => hall e (by simp [hmem]))

/-- C18. Entries stored under a key that is not the canonical form of the annotation key
are invisible: the values found for the key, and with them the iteration of the field, are
those of the map cut down to the entries stored under exactly the canonical form; and when
every entry of the map is stored under another key (such as the raw key `x-int` for the
annotation `x-int`), the field is skipped: it keeps its value however the call ends, and
the call ends as on the record without the field. -/
theorem noncanonical_entries_invisible (lib : FloatLib) (pre post : Record)
    (f : StructField) (v : Value) (h : Header) (key : String) (htag : f.Tag = some key) :
    h.Values key = (h.under (CanonicalMIMEHeaderKey key)).Values key ∧
      fieldStep lib h f v = fieldStep lib (h.under (CanonicalMIMEHeaderKey key)) f v ∧
      ((∀ e ∈ h, e.1 ≠ CanonicalMIMEHeaderKey key) →
        h.Values key = [] ∧
        (UnmarshalHeaders lib (pre ++ (f, v) :: post) h).1[pre.length]? = some (f, v) ∧
        (UnmarshalHeaders lib (pre ++ (f, v) :: post) h).2
          = (UnmarshalHeaders lib (pre ++ post) h).2 ∧
        (UnmarshalHeaders lib (pre ++ (f, v) :: post) h).1
          = (UnmarshalHeaders lib (pre ++ post) h).1.take pre.length ++
              (f, v) :: (UnmarshalHeaders lib (pre ++ post) h).1.drop pre.length) := by
  have hvals : h.Values key = (h.under (CanonicalMIMEHeaderKey key)).Values key := by
    simp [Header.Values, Header.index, Header.find?_under]
  refine ⟨hvals, ?_, ?_⟩
  · apply fieldStep_values_congr
    intro key2 htag2
    rw [htag] at htag2
    simp only [Option.some.injEq] at htag2
    subst htag2
    exact hvals
  · intro hall
    have hnone : h.Values key = [] := by
      simp [Header.Values, Header.index, Header.find?_none h _ hall]
    refine ⟨hnone, ?_⟩
    apply skipped_field_frame
    simp [fieldStep, htag, hnone]

/-- The field `Int` of `testStruct`, annotated `x-int`, with a map whose one entry is
stored under the raw key `x-int`: no values are found and the field keeps its 3. -/
theorem noncanonical_entries_invisible_witness :
    Header.Values [("x-int", ["5"])] "x-int" = [] ∧
    (UnmarshalHeaders testFloatLib ([] ++ (plainField "Int" .Int (some "x-int"), .int 3) :: [])
        [("x-int", ["5"])]).1[([] : Record).length]?
      = some (plainField "Int" .Int (some "x-int"), .int 3) :=
  have hall := (noncanonical_entries_invisible testFloatLib [] []
    (plainField "Int" .Int (some "x-int")) (.int 3) [("x-int", ["5"])] "x-int" rfl).2.2
    (by decide)
  ⟨hall.1, hall.2.1⟩

/-! ## A second call -/

/-- A built-in conversion does not look at the value the field holds: run again on the
value it left, it ends the same way and leaves the same value. -/
theorem setValueFromHeader_builtin_again (lib : FloatLib) (f : StructField) (v : Value)
    (vs : List String) (hcustom : f.Typ.Custom = none) :
    setValueFromHeader lib f (setValueFromHeader lib f v vs).1 vs
      = setValueFromHeader lib f v vs := by
  unfold setValueFromHeader
  by_cases hexp : f.IsExported = false
  · rw [if_pos hexp]
    simp only
    rw [if_pos hexp]
  · rw [if_neg hexp]
    rw [hcustom]
    simp only
    split <;> (try split) <;> (try split) <;> simp_all

theorem fieldStep_builtin_again (lib : FloatLib) (h : Header) (f : StructField) (v : Value)
    (hbuiltin : f.Tag ≠ none → f.Typ.Custom = none) :
    fieldStep lib h f (fieldStep lib h f v).1 = fieldStep lib h f v := by
  cases htag : f.Tag with
  | none => simp [fieldStep, htag]
  | some key =>
    have hcustom := hbuiltin (by simp [htag])
    by_cases hkey : key = "-"
    · simp [fieldStep, htag, hkey]
    · by_cases hlen : (h.Values key).length = 0
      · simp [fieldStep, htag, hkey, hlen]
      · have hstep : ∀ x, fieldStep lib h f x = setValueFromHeader lib f x (h.Values key) := by
          intro x
          simp [fieldStep, htag, hkey, hlen]
        rw [hstep, hstep]
        exact setValueFromHeader_builtin_again lib f v _ hcustom

theorem fieldLoop_builtin_again (lib : FloatLib) (h : Header) (v : Record)
    (hbuiltin : ∀ slot ∈ v, slot.1.Tag ≠ none → slot.1.Typ.Custom = none) :
    fieldLoop lib h (fieldLoop lib h v).1 = fieldLoop lib h v := by
  induction v with
  | nil => simp [fieldLoop]
  | cons slot rest ih =>
    obtain ⟨f, x⟩ := slot
    have hagain := fieldStep_builtin_again lib h f x (hbuiltin (f, x) (by simp))
    have hrest := ih (fun slot hmem => hbuiltin slot (by simp [hmem]))
    rcases hstep : fieldStep lib h f x with ⟨y, r⟩
    rw [hstep] at hagain
    simp only at hagain
    cases r with
    | ok =>
      rw [fieldLoop_cons_ok lib h f x y rest hstep]
      simp only
      rw [fieldLoop_cons_ok lib h f y y _ hagain, hrest]
    | err e =>
      rw [fieldLoop_cons_stop lib h f x y _ rest hstep (by simp)]
      simp only
      rw [fieldLoop_cons_stop lib h f y y _ rest hagain (by simp)]
    | panic m =>
      rw [fieldLoop_cons_stop lib h f x y _ rest hstep (by simp)]
      simp only
      rw [fieldLoop_cons_stop lib h f y y _ rest hagain (by simp)]

/-- C19. Idempotence for built-in kinds: on a record whose annotated fields have types
without an `UnmarshalHeader` method, a second call of `UnmarshalHeaders` with the same map,
on the record the first call left, ends as the first call ended (`nil`, or the same error)
and leaves the record exactly as the first call left it. -/
theorem builtin_idempotent (lib : FloatLib) (v : Record) (h : Header)
    (hbuiltin : ∀ slot ∈ v, slot.1.Tag ≠ none → slot.1.Typ.Custom = none) :
    UnmarshalHeaders lib (UnmarshalHeaders lib v h).1 h = UnmarshalHeaders lib v h := by
  by_cases hnil : h = []
  · subst hnil
    simp [UnmarshalHeaders]
  · rw [UnmarshalHeaders_eq_loop lib v h hnil, UnmarshalHeaders_eq_loop lib _ h hnil]
    exact fieldLoop_builtin_again lib h v hbuiltin

/-- A second call on the fields `String`, `Slices` and `Int8` of `testStruct`: the field
`Slices` holds `["some", "slice"]` after the first call and after the second, the values
are replaced, not appended. -/
theorem builtin_idempotent_witness :
    (UnmarshalHeaders testFloatLib
        (UnmarshalHeaders testFloatLib ((testRecord testStructZero).take 4) setTestHeaders).1
        setTestHeaders).1.values
      = [.string "some-string", .strings ["some", "slice"], .int (-1), .int (-2)] ∧
    (UnmarshalHeaders testFloatLib
        (UnmarshalHeaders testFloatLib ((testRecord testStructZero).take 4) setTestHeaders).1
        setTestHeaders).2 = .ok :=
  have hall := builtin_idempotent testFloatLib ((testRecord testStructZero).take 4)
    setTestHeaders
    (by
      intro slot hmem _
      simp only [testRecord, testStructFields, testStructZero, List.zip_cons_cons, List.take,
        List.mem_cons, List.mem_nil_iff, or_false] at hmem
      rcases hmem with hmem | hmem | hmem | hmem <;> subst hmem <;> rfl)
  ⟨(congrArg (fun r => r.1.values) hall).trans (by decide),
    (congrArg (fun r => r.2) hall).trans (by decide)⟩

/-! ## Index safety -/

/-- With a value list that is not empty, no index read of `setValueFromHeader` is out of
range. -/
theorem setValueFromHeader_index_safe (lib : FloatLib) (f : StructField) (v : Value)
    (s : String) (rest : List String) :
    indexOutOfRange (setValueFromHeader lib f v (s :: rest)).2 = false := by
  have hfill := fillSlice_spec (s :: rest) (s :: rest).length 0
    (List.replicate (s :: rest).length "") (by omega) (by simp)
    (fun j hj => absurd hj (by omega))
  unfold setValueFromHeader
  split
  · rfl
  cases hcustom : f.Typ.Custom with
  | some custom =>
    simp only
    rcases custom v (s :: rest) with ⟨v1, _ | e⟩ <;> rfl
  | none =>
    simp only [List.head?_cons, hfill]
    split <;> (try split) <;> simp_all [indexOutOfRange]

/-- The loop calls `setValueFromHeader` with a value list that is not empty, or not at
all. -/
theorem fieldStep_calls (lib : FloatLib) (h : Header) (f : StructField) (v : Value) :
    fieldStep lib h f v = (v, .ok) ∨
      ∃ key s rest, f.Tag = some key ∧ h.Values key = s :: rest ∧
        fieldStep lib h f v = setValueFromHeader lib f v (s :: rest) := by
  cases htag : f.Tag with
  | none => left; simp [fieldStep, htag]
  | some key =>
    by_cases hkey : key = "-"
    · left; simp [fieldStep, htag, hkey]
    · cases hvals : h.Values key with
      | nil => left; simp [fieldStep, htag, hvals]
      | cons s rest =>
        right
        exact ⟨key, s, rest, rfl, hvals, fieldStep_bound lib h f v key s rest htag hkey hvals⟩

theorem fieldLoop_index_safe (lib : FloatLib) (h : Header) (v : Record) :
    indexOutOfRange (fieldLoop lib h v).2 = false := by
  induction v with
  | nil => rfl
  | cons slot rest ih =>
    obtain ⟨f, x⟩ := slot
    have hsafe : indexOutOfRange (fieldStep lib h f x).2 = false := by
      rcases fieldStep_calls lib h f x with hskip | ⟨key, s, tail, _, _, hcall⟩
      · rw [hskip]
        rfl
      · rw [hcall]
        exact setValueFromHeader_index_safe lib f x s tail
    rcases hstep : fieldStep lib h f x with ⟨y, r⟩
    rw [hstep] at hsafe
    cases r with
    | ok => rw [fieldLoop_cons_ok lib h f x y rest hstep]; exact ih
    | err e => rw [fieldLoop_cons_stop lib h f x y _ rest hstep (by simp)]; rfl
    | panic m => rw [fieldLoop_cons_stop lib h f x y _ rest hstep (by simp)]; exact hsafe

/-- C20. Index safety: for every record and every header map, each field is either
skipped or handed to `setValueFromHeader` with a value list that is not empty; with such a
list no read of `values[0]` and no read of `values[i]` in the loop of the slice case is out
of range (the loop copies every value and ends normally); and no call of
`UnmarshalHeaders` ends in the panic of an index out of range. -/
theorem index_safety (lib : FloatLib) (v : Record) (h : Header) :
    indexOutOfRange (UnmarshalHeaders lib v h).2 = false ∧
      (∀ slot ∈ v, fieldStep lib h slot.1 slot.2 = (slot.2, .ok) ∨
        ∃ key s rest, slot.1.Tag = some key ∧ h.Values key = s :: rest ∧
          fieldStep lib h slot.1 slot.2 = setValueFromHeader lib slot.1 slot.2 (s :: rest)) ∧
      (∀ (f : StructField) (x : Value) (s : String) (rest : List String),
        indexOutOfRange (setValueFromHeader lib f x (s :: rest)).2 = false) ∧
      (∀ values : List String,
        fillSlice values values.length 0 (List.replicate values.length "") = some values) := by
  refine ⟨?_, fun slot _ => fieldStep_calls lib h slot.1 slot.2,
    fun f x s rest => setValueFromHeader_index_safe lib f x s rest,
    fun values => fillSlice_spec values values.length 0 _ (by omega) (by simp)
      (fun j hj => absurd hj (by omega))⟩
  unfold UnmarshalHeaders
  split
  · rfl
  · exact fieldLoop_index_safe lib h v

end Headers
